import Mathlib

/-!
Shallow embedding of two libavformat codecs — the Matroska muxer
(matroskaenc.c) and the MXF demuxer (mxf.c) — together with proofs about
the properties their specification states.

Modelling conventions:
* bytes and machine words are `Nat`s, reduced `% 2 ^ w` exactly where the C
  performs (or relies on) fixed-width arithmetic;
* the seekable output file (`ByteIOContext`) is a cursor plus an
  association list from absolute position to the byte last written there,
  newest entry first, so later writes shadow earlier ones;
* fallible operations return `Option` / `Except`; dereferencing a null
  pointer (a crash in C) is a dedicated error value;
* external collaborators (the MD5 primitive, libavutil's av_dbl2int) are
  modelled at their interface only, as the specification directs.
-/

/-- Big-endian byte list of the low `n` bytes of `v`, mirroring the C idiom
`for (i = bytes-1; i >= 0; i--) put_byte(pb, v >> i*8);`. -/
def beBytes : Nat → Nat → List Nat
  | 0, _ => []
  | n+1, v => (v >>> (8*n)) % 256 :: beBytes n v

/-- Big-endian value of a byte list (each byte taken mod 256, as an 8-bit
read would). -/
def beVal (bs : List Nat) : Nat := bs.foldl (fun acc b => acc * 256 + b % 256) 0

/-! EBML primitive layer (matroskaenc.c).  The element-ID and size codecs
are pure byte-list functions; the stateful put_* writers below feed these
lists to the file model. -/

/-- Fuelled floor-log2 (the loops in this file use explicit fuel so that
they stay structurally recursive and kernel-computable; each wrapper passes
enough fuel and the lemmas carry the corresponding side condition). -/
def av_log2F : Nat → Nat → Nat
  | 0, _ => 0
  | fuel+1, n => if n ≥ 2 then av_log2F fuel (n / 2) + 1 else 0

/-- av_log2: floor of log2, with av_log2 0 = 0. -/
def av_log2 (n : Nat) : Nat := av_log2F n n

/-- ebml_id_size: `(av_log2(id+1)-1)/7+1`.  The C argument is a 32-bit
unsigned int, so `id+1` wraps; av_log2 0 = 0 and the `-1` then truncates to
0 in C exactly as Nat subtraction does here. -/
def ebml_id_size (id : Nat) : Nat := (av_log2 ((id+1) % 2^32) - 1) / 7 + 1

/-- Bytes written by put_ebml_id: the id, big-endian, in ebml_id_size
bytes. -/
def idBytes (id : Nat) : List Nat := beBytes (ebml_id_size id) id

/-- Bytes written by put_ebml_size_unknown: `bytes` (capped at 8) bytes
whose `bytes*7+1` low bits are all set, written big-endian. -/
def unknownSizeBytes (bytes : Nat) : List Nat :=
  beBytes (min bytes 8) (2 ^ ((min bytes 8) * 7 + 1) - 1)

/-- Loop of ebml_size_bytes: `while ((size+1) >> bytes*7) bytes++;`
(fuelled; the shifted value bounds the iteration count). -/
def ebmlSizeLoopF : Nat → Nat → Nat → Nat
  | 0, _, b => b
  | fuel+1, v, b => if v = 0 then b else ebmlSizeLoopF fuel (v >>> 7) (b+1)

def ebmlSizeLoop (v b : Nat) : Nat := ebmlSizeLoopF v v b

/-- ebml_size_bytes: how many bytes an EBML size field for `size` needs. -/
def ebml_size_bytes (size : Nat) : Nat := ebmlSizeLoop ((size+1) >>> 7) 1

/-- Bytes emitted by put_ebml_size(size, minbytes).  The marker bit is OR-ed
in exactly as the C `size |= 1ULL << bytes*7` does. -/
def ebmlSizePayload (size minbytes : Nat) : List Nat :=
  let bytes := max minbytes (ebml_size_bytes size)
  if size ≥ 2^56 - 1 then unknownSizeBytes 1
  else beBytes bytes (size ||| (1 <<< (bytes * 7)))

/-! The seekable output file.  `written` records `(position, byte)` pairs,
newest first, so `readByte` sees the most recent write at a position;
positions never written read back as `none` (in C: whatever the medium
held). -/

structure ByteIOCtx where
  written : List (Nat × Nat)
  pos : Nat
deriving Repr, DecidableEq

def url_ftell (pb : ByteIOCtx) : Nat := pb.pos

def url_fseek_set (pb : ByteIOCtx) (p : Nat) : ByteIOCtx := { pb with pos := p }

def put_byte (pb : ByteIOCtx) (b : Nat) : ByteIOCtx :=
  ⟨(pb.pos, b % 256) :: pb.written, pb.pos + 1⟩

def put_buffer (pb : ByteIOCtx) (bs : List Nat) : ByteIOCtx :=
  bs.foldl put_byte pb

def readByte (pb : ByteIOCtx) (p : Nat) : Option Nat :=
  (pb.written.find? (fun e => e.1 == p)).map (fun e => e.2)

/-- Read `n` consecutive positions starting at `p`. -/
def readBytesList (pb : ByteIOCtx) (p n : Nat) : List (Option Nat) :=
  (List.range n).map (fun i => readByte pb (p + i))

/-! Element-ID constants.  Modelled from the spec: the numeric values come
from the repository's matroska.h header (not included under src/), which
carries the standard Matroska/EBML element IDs; the spec names the elements
(SeekHead, Cues, Cluster, ...) and these are their standardised IDs. -/

def EBML_ID_VOID : Nat := 0xEC

def MATROSKA_ID_SEEKHEAD : Nat := 0x114D9B74

def MATROSKA_ID_SEEKENTRY : Nat := 0x4DBB

def MATROSKA_ID_SEEKID : Nat := 0x53AB

def MATROSKA_ID_SEEKPOSITION : Nat := 0x53AC

def MATROSKA_ID_CUES : Nat := 0x1C53BB6B

def MATROSKA_ID_POINTENTRY : Nat := 0xBB

def MATROSKA_ID_CUETIME : Nat := 0xB3

def MATROSKA_ID_CUETRACKPOSITION : Nat := 0xB7

def MATROSKA_ID_CUETRACK : Nat := 0xF7

def MATROSKA_ID_CUECLUSTERPOSITION : Nat := 0xF1

def MATROSKA_ID_CLUSTER : Nat := 0x1F43B675

def MATROSKA_ID_CLUSTERTIMECODE : Nat := 0xE7

def MATROSKA_ID_SIMPLEBLOCK : Nat := 0xA3

def MATROSKA_ID_BLOCKGROUP : Nat := 0xA0

def MATROSKA_ID_BLOCK : Nat := 0xA1

def MATROSKA_ID_DURATION : Nat := 0x4489

def MATROSKA_ID_SEGMENT : Nat := 0x18538067

def MATROSKA_ID_SEGMENTUID : Nat := 0x73A4

/-! Stateful EBML writers (matroskaenc.c), layered on the pure byte-list
codecs above. -/

def put_ebml_id (pb : ByteIOCtx) (id : Nat) : ByteIOCtx :=
  put_buffer pb (idBytes id)

def put_ebml_size_unknown (pb : ByteIOCtx) (bytes : Nat) : ByteIOCtx :=
  put_buffer pb (unknownSizeBytes bytes)

def put_ebml_size (pb : ByteIOCtx) (size minbytes : Nat) : ByteIOCtx :=
  put_buffer pb (ebmlSizePayload size minbytes)

/-- Loop of put_ebml_uint's byte count: `bytes = 1; while (val >> bytes*8)
bytes++;` (fuelled like ebmlSizeLoopF). -/
def uintBytesLoopF : Nat → Nat → Nat → Nat
  | 0, _, b => b
  | fuel+1, v, b => if v = 0 then b else uintBytesLoopF fuel (v >>> 8) (b+1)

def uintBytesLoop (v b : Nat) : Nat := uintBytesLoopF v v b

def uintBytesCount (val : Nat) : Nat := uintBytesLoop (val >>> 8) 1

/-- Bytes written by put_ebml_uint: id, size field, then the value
big-endian in its minimal byte count. -/
def uintElemBytes (elementid val : Nat) : List Nat :=
  idBytes elementid ++ ebmlSizePayload (uintBytesCount val) 0
    ++ beBytes (uintBytesCount val) val

def put_ebml_uint (pb : ByteIOCtx) (elementid val : Nat) : ByteIOCtx :=
  put_buffer pb (uintElemBytes elementid val)

/-- Modelled from the spec: `av_dbl2int` is a libavutil helper outside this
repository that returns the IEEE-754 binary64 bit pattern of a double.  The
muxer only ever converts the nonnegative integer `duration`, so the model
computes the binary64 pattern of a natural number (round to nearest, ties
to even). -/
def roundNearestEven (v sh : Nat) : Nat :=
  let q := v / 2^sh
  let r := v % 2^sh
  if 2*r > 2^sh ∨ (2*r = 2^sh ∧ q % 2 = 1) then q + 1 else q

def av_dbl2int (v : Nat) : Nat :=
  if v = 0 then 0
  else
    let e := Nat.log2 v
    if e ≤ 52 then (1023 + e) * 2^52 + (v * 2^(52-e) - 2^52)
    else
      let m := roundNearestEven v (e - 52)
      if m = 2^53 then (1024 + e) * 2^52 else (1023 + e) * 2^52 + (m - 2^52)

/-- Bytes written by put_ebml_float: id, an 8-byte size field, then the
64-bit big-endian float pattern. -/
def floatElemBytes (elementid val : Nat) : List Nat :=
  idBytes elementid ++ ebmlSizePayload 8 0 ++ beBytes 8 (av_dbl2int val)

def put_ebml_float (pb : ByteIOCtx) (elementid val : Nat) : ByteIOCtx :=
  put_buffer pb (floatElemBytes elementid val)

/-- Bytes written by put_ebml_binary: id, the size field for `buf.length`,
then the raw bytes. -/
def binaryElemBytes (elementid : Nat) (buf : List Nat) : List Nat :=
  idBytes elementid ++ ebmlSizePayload buf.length 0 ++ buf

def put_ebml_binary (pb : ByteIOCtx) (elementid : Nat) (buf : List Nat) : ByteIOCtx :=
  put_buffer pb (binaryElemBytes elementid buf)

/-- put_ebml_void: for `size < 2` the C function returns without writing;
otherwise it writes the Void id, a 1-byte size field when `size < 10` and
an 8-byte one otherwise, then seeks the cursor to `currentpos + size`. -/
def put_ebml_void (pb : ByteIOCtx) (size : Nat) : ByteIOCtx :=
  let currentpos := url_ftell pb
  if size < 2 then pb
  else
    let pb := put_ebml_id pb EBML_ID_VOID
    let pb := if size < 10 then put_ebml_size pb (size-1) 0
              else put_ebml_size pb (size-9) 8
    url_fseek_set pb (currentpos + size)

/-- start_ebml_master: writes the id and an 8-byte unknown-size
placeholder, returning the context and the post-placeholder offset. -/
def start_ebml_master (pb : ByteIOCtx) (elementid : Nat) : ByteIOCtx × Nat :=
  let pb := put_ebml_id pb elementid
  let pb := put_ebml_size_unknown pb 8
  (pb, url_ftell pb)

/-- end_ebml_master: seeks to `start - 8`, rewrites the size over exactly
8 bytes, and restores the cursor. -/
def end_ebml_master (pb : ByteIOCtx) (start : Nat) : ByteIOCtx :=
  let pos := url_ftell pb
  let pb := url_fseek_set pb (start - 8)
  let pb := put_ebml_size pb (pos - start) 8
  url_fseek_set pb pos

/-! Claim C5: the EBML size round-trip. -/

/-- Modelled from the spec: the muxer has no size reader, so the decoder is
the spec's words — take the emitted bytes big-endian and strip the leading
marker bit, i.e. subtract `2 ^ (7 * width)`. -/
def decodeEbmlSize (bs : List Nat) : Nat := beVal bs - 2 ^ (7 * bs.length)

/-! SeekHead builder (matroskaenc.c). -/

/-- Truncating unsigned 64-bit subtraction, as `uint64_t a - b`. -/
def usub64 (a b : Nat) : Nat := ((((a : Int) - (b : Int)) % (2^64 : Int))).toNat

structure mkv_seekhead_entry where
  elementid : Nat
  segmentpos : Nat
deriving Repr, DecidableEq

/-- The C struct also carries num_entries; here it is `entries.length`.
reserved_size is 0 when appending (the struct is calloc-ed; the
"-1 if appending" comment in the source is never realised). -/
structure mkv_seekhead where
  filepos : Nat
  segment_offset : Nat
  reserved_size : Nat
  max_entries : Nat
  entries : List mkv_seekhead_entry
deriving Repr, DecidableEq

/-- mkv_start_seekhead: with `numelements > 0` it records the current
position, reserves `numelements*28 + 13` bytes as a Void there; with 0 it
reserves nothing. -/
def mkv_start_seekhead (pb : ByteIOCtx) (segment_offset numelements : Nat) :
    mkv_seekhead × ByteIOCtx :=
  if numelements > 0 then
    let filepos := url_ftell pb
    let reserved := numelements * 28 + 13
    (⟨filepos, segment_offset, reserved, numelements, []⟩,
      put_ebml_void pb reserved)
  else
    (⟨0, segment_offset, 0, 0, []⟩, pb)

/-- mkv_add_seekhead_entry: refuses to exceed a non-zero reservation;
stores the element id (unsigned int) and the segment-relative position
(uint64). -/
def mkv_add_seekhead_entry (seekhead : mkv_seekhead) (elementid filepos : Nat) :
    Option mkv_seekhead :=
  if seekhead.max_entries > 0 ∧ seekhead.max_entries ≤ seekhead.entries.length then
    none
  else
    some { seekhead with
      entries := seekhead.entries ++
        [⟨elementid % 2^32, usub64 filepos seekhead.segment_offset⟩] }

/-- One SeekEntry of mkv_write_seekhead: a SeekEntry master holding a
SeekID (the raw element id, its length as the size) and a SeekPosition. -/
def writeSeekEntry (pb : ByteIOCtx) (entry : mkv_seekhead_entry) : ByteIOCtx :=
  let se := start_ebml_master pb MATROSKA_ID_SEEKENTRY
  let pb := se.1
  let seekentry := se.2
  let pb := put_ebml_id pb MATROSKA_ID_SEEKID
  let pb := put_ebml_size pb (ebml_id_size entry.elementid) 0
  let pb := put_ebml_id pb entry.elementid
  let pb := put_ebml_uint pb MATROSKA_ID_SEEKPOSITION entry.segmentpos
  end_ebml_master pb seekentry

/-- mkv_write_seekhead: write at the reserved spot (or in place), then Void
the remainder of the reservation and restore the cursor; returns the file
offset of the written SeekHead. -/
def mkv_write_seekhead (pb : ByteIOCtx) (seekhead : mkv_seekhead) :
    ByteIOCtx × Nat :=
  let currentpos := url_ftell pb
  let pb := if seekhead.reserved_size > 0 then url_fseek_set pb seekhead.filepos
            else pb
  let ms := start_ebml_master pb MATROSKA_ID_SEEKHEAD
  let pb := ms.1
  let metaseek := ms.2
  let pb := seekhead.entries.foldl writeSeekEntry pb
  let pb := end_ebml_master pb metaseek
  if seekhead.reserved_size > 0 then
    let remaining := usub64 (seekhead.filepos + seekhead.reserved_size) (url_ftell pb)
    let pb := put_ebml_void pb remaining
    let pb := url_fseek_set pb currentpos
    (pb, seekhead.filepos)
  else
    (pb, currentpos)

/-! Cues builder (matroskaenc.c). -/

/-- The packet fields the muxer uses.  pts and duration are modelled as
naturals (Matroska packet timestamps are nonnegative milliseconds);
`size` is `data.length`. -/
structure AVPacket where
  data : List Nat
  pts : Nat
  duration : Nat
  stream_index : Nat
  flag_key : Bool
deriving Repr, DecidableEq

structure mkv_cuepoint where
  pts : Nat
  tracknum : Nat
  cluster_pos : Nat
deriving Repr, DecidableEq

structure mkv_cues where
  segment_offset : Nat
  entries : List mkv_cuepoint
deriving Repr, DecidableEq

def mkv_start_cues (segment_offset : Nat) : mkv_cues := ⟨segment_offset, []⟩

/-- mkv_add_cuepoint: appends `(pts, stream_index+1, cluster_pos −
segment_offset)`.  The C function fails only on allocation failure, which
is outside this model. -/
def mkv_add_cuepoint (cues : mkv_cues) (pkt : AVPacket) (cluster_pos : Nat) :
    mkv_cues :=
  { cues with entries := cues.entries ++
      [⟨pkt.pts, pkt.stream_index + 1, usub64 cluster_pos cues.segment_offset⟩] }

/-- The body of one CuePoint in mkv_write_cues: CueTime, then one
CueTrackPosition master per run entry, holding CueTrack and
CueClusterPosition. -/
def writeCuePointBytes (pb : ByteIOCtx) (pts : Nat) (run : List mkv_cuepoint) :
    ByteIOCtx :=
  let cp := start_ebml_master pb MATROSKA_ID_POINTENTRY
  let pb := cp.1
  let cuepoint := cp.2
  let pb := put_ebml_uint pb MATROSKA_ID_CUETIME pts
  let pb := run.foldl (fun pb entry =>
      let tp := start_ebml_master pb MATROSKA_ID_CUETRACKPOSITION
      let pb := tp.1
      let track_positions := tp.2
      let pb := put_ebml_uint pb MATROSKA_ID_CUETRACK entry.tracknum
      let pb := put_ebml_uint pb MATROSKA_ID_CUECLUSTERPOSITION entry.cluster_pos
      end_ebml_master pb track_positions) pb
  end_ebml_master pb cuepoint

/-- The entry loop of mkv_write_cues: at index i it takes `pts =
entries[i].pts`, emits one CuePoint whose children cover the contiguous
entries `entries[i..i+j)` with that pts (`j ≥ 1`), then continues at
`i + j` (the C `i += j - 1` plus the `i++`).  Fuelled by the number of
entries left. -/
def cuesLoopF (fuel : Nat) (pb : ByteIOCtx) (es : List mkv_cuepoint) : ByteIOCtx :=
  match fuel, es with
  | _, [] => pb
  | 0, _ => pb
  | fuel+1, e :: rest =>
    let run := e :: rest.takeWhile (fun x => x.pts == e.pts)
    let pb := writeCuePointBytes pb e.pts run
    cuesLoopF fuel pb (rest.dropWhile (fun x => x.pts == e.pts))

/-- mkv_write_cues: the Cues master around the entry loop; returns the
offset where the Cues started. -/
def mkv_write_cues (pb : ByteIOCtx) (cues : mkv_cues) : ByteIOCtx × Nat :=
  let currentpos := url_ftell pb
  let ce := start_ebml_master pb MATROSKA_ID_CUES
  let pb := ce.1
  let cues_element := ce.2
  let pb := cuesLoopF cues.entries.length pb cues.entries
  let pb := end_ebml_master pb cues_element
  (pb, currentpos)

/-- The CuePoint structure the entry loop emits: one `(pts, run)` pair per
loop step, in order. -/
def cuePointsEmittedF (fuel : Nat) (es : List mkv_cuepoint) :
    List (Nat × List mkv_cuepoint) :=
  match fuel, es with
  | _, [] => []
  | 0, _ => []
  | fuel+1, e :: rest =>
    (e.pts, e :: rest.takeWhile (fun x => x.pts == e.pts)) ::
      cuePointsEmittedF fuel (rest.dropWhile (fun x => x.pts == e.pts))

def cuePointsEmitted (es : List mkv_cuepoint) : List (Nat × List mkv_cuepoint) :=
  cuePointsEmittedF es.length es

/-! Packet writing (matroskaenc.c). -/

inductive CodecType where
  | video
  | audio
  | subtitle
  | data
deriving DecidableEq, Repr

/-- MatroskaMuxContext.  The MD5 hasher is an external primitive; its state
is modelled as the byte stream absorbed so far (av_md5_update appends). -/
structure MatroskaMuxContext where
  segment : Nat
  segment_offset : Nat
  segment_uid : Nat
  cluster : Nat
  cluster_pos : Nat
  cluster_pts : Nat
  duration_offset : Nat
  duration : Nat
  main_seekhead : mkv_seekhead
  cluster_seekhead : mkv_seekhead
  cues : mkv_cues
  md5 : List Nat
deriving Repr, DecidableEq

/-- The two bytes of put_be16 applied to the (possibly negative) int64
pts delta; C converts to unsigned and keeps the low 16 bits. -/
def be16Bytes (v : Int) : List Nat :=
  [((v % (65536 : Int))).toNat / 256, ((v % (65536 : Int))).toNat % 256]

/-- The byte sequence of one mkv_write_block call: id, size = payload+4,
`0x80 | (stream_index+1)`, 16-bit big-endian pts delta, flags, payload. -/
def blockBytes (mkv : MatroskaMuxContext) (blockid : Nat) (pkt : AVPacket)
    (flags : Nat) : List Nat :=
  idBytes blockid ++ ebmlSizePayload (pkt.data.length + 4) 0 ++
    [0x80 ||| (pkt.stream_index + 1)] ++
    be16Bytes ((pkt.pts : Int) - (mkv.cluster_pts : Int)) ++
    [flags] ++ pkt.data

def mkv_write_block (mkv : MatroskaMuxContext) (pb : ByteIOCtx)
    (blockid : Nat) (pkt : AVPacket) (flags : Nat) : ByteIOCtx :=
  put_buffer pb (blockBytes mkv blockid pkt flags)

/-- The tail of mkv_write_packet after the cluster-boundary check: write a
SimpleBlock (or a BlockGroup with Block and BlockDuration for subtitles),
register a cue point for video keyframes, and set the running duration to
`pkt.pts + pkt.duration`. -/
def mkv_write_packet_blocks (mkv : MatroskaMuxContext) (pb : ByteIOCtx)
    (codec_type : CodecType) (pkt : AVPacket) (keyframe : Bool) :
    MatroskaMuxContext × ByteIOCtx :=
  let pb :=
    if codec_type ≠ CodecType.subtitle then
      mkv_write_block mkv pb MATROSKA_ID_SIMPLEBLOCK pkt
        (if keyframe then 0x80 else 0)
    else
      let bg := start_ebml_master pb MATROSKA_ID_BLOCKGROUP
      let pb := mkv_write_block mkv bg.1 MATROSKA_ID_BLOCK pkt 0
      let pb := put_ebml_uint pb MATROSKA_ID_DURATION pkt.duration
      end_ebml_master pb bg.2
  let mkv :=
    if codec_type = CodecType.video ∧ keyframe then
      { mkv with cues := mkv_add_cuepoint mkv.cues pkt mkv.cluster_pos }
    else mkv
  ({ mkv with duration := pkt.pts + pkt.duration }, pb)

/-- mkv_write_packet: open a new cluster when the file offset exceeds
`mkv->cluster + 5 MiB` or the pts exceeds `mkv->cluster_pts + 5000`, then
write the block.  Failure (`none`) is the C `return -1` when the cluster
SeekHead rejects the new entry. -/
def mkv_write_packet (mkv : MatroskaMuxContext) (pb : ByteIOCtx)
    (codec_type : CodecType) (pkt : AVPacket) :
    Option (MatroskaMuxContext × ByteIOCtx) :=
  let keyframe := pkt.flag_key
  if url_ftell pb > mkv.cluster + 5*1024*1024 ∨ pkt.pts > mkv.cluster_pts + 5000 then
    let pb := end_ebml_master pb mkv.cluster
    match mkv_add_seekhead_entry mkv.cluster_seekhead MATROSKA_ID_CLUSTER (url_ftell pb) with
    | none => none
    | some sh =>
      let cluster_pos := url_ftell pb
      let cm := start_ebml_master pb MATROSKA_ID_CLUSTER
      let pb := put_ebml_uint cm.1 MATROSKA_ID_CLUSTERTIMECODE pkt.pts
      let mkv := { mkv with
        cluster_seekhead := sh,
        cluster_pos := cluster_pos,
        cluster := cm.2,
        cluster_pts := pkt.pts,
        md5 := mkv.md5 ++ pkt.data.take (min 200 pkt.data.length) }
      some (mkv_write_packet_blocks mkv pb codec_type pkt keyframe)
  else
    some (mkv_write_packet_blocks mkv pb codec_type pkt keyframe)

/-! Read-back framing lemmas for the write path. -/

/-! Trailer (matroskaenc.c) and the running duration. -/

/-- Modelled from the spec: the MD5 primitive is an external collaborator
specified only at its interface; no claim depends on the digest bytes, so
the finalisation is a fixed 16-byte digest. -/
def av_md5_final (_absorbed : List Nat) : List Nat := List.replicate 16 0

/-- mkv_write_trailer: close the last Cluster, write Cues and the cluster
SeekHead, register both in the main SeekHead (failures of the unchecked
adds drop the entry, as in the C), write the main SeekHead, rewrite the
Duration reservation as an EBML float, optionally write the SegmentUID
from the MD5 digest, restore the cursor and close the Segment. -/
def mkv_write_trailer (mkv : MatroskaMuxContext) (pb : ByteIOCtx)
    (bitexact : Bool) : ByteIOCtx :=
  let pb := end_ebml_master pb mkv.cluster
  let wc := mkv_write_cues pb mkv.cues
  let pb := wc.1
  let cuespos := wc.2
  let ws := mkv_write_seekhead pb mkv.cluster_seekhead
  let pb := ws.1
  let second_seekhead := ws.2
  let sh1 := (mkv_add_seekhead_entry mkv.main_seekhead MATROSKA_ID_CUES
    cuespos).getD mkv.main_seekhead
  let sh2 := (mkv_add_seekhead_entry sh1 MATROSKA_ID_SEEKHEAD
    second_seekhead).getD sh1
  let wm := mkv_write_seekhead pb sh2
  let pb := wm.1
  let currentpos := url_ftell pb
  let pb := url_fseek_set pb mkv.duration_offset
  let pb := put_ebml_float pb MATROSKA_ID_DURATION mkv.duration
  let pb :=
    if !bitexact then
      let pb := url_fseek_set pb mkv.segment_uid
      put_ebml_binary pb MATROSKA_ID_SEGMENTUID (av_md5_final mkv.md5)
    else pb
  let pb := url_fseek_set pb currentpos
  end_ebml_master pb mkv.segment

/-- Feeding a packet sequence through mkv_write_packet. -/
def foldPackets (mkv : MatroskaMuxContext) (pb : ByteIOCtx) :
    List (CodecType × AVPacket) → Option (MatroskaMuxContext × ByteIOCtx)
  | [] => some (mkv, pb)
  | (ct, pkt) :: rest =>
    match mkv_write_packet mkv pb ct pkt with
    | none => none
    | some (m, p) => foldPackets m p rest

/-! AAC sample-rate probing (matroskaenc.c). -/

/-- The 12-entry sample-rate table of get_aac_sample_rates. -/
def aac_sample_rates : List Nat :=
  [96000, 88200, 64000, 48000, 44100, 32000,
   24000, 22050, 16000, 12000, 11025, 8000]

/-- get_aac_sample_rates.  Table accesses use `List.get?` so that an
out-of-bounds read of the C array surfaces as `none`; `some` carries the
(possibly updated) `(sample_rate, output_sample_rate)` pair, which the C
leaves untouched on short extradata or a rejected (`> 12`) index. -/
def get_aac_sample_rates (extradata : List Nat)
    (sample_rate output_sample_rate : Nat) : Option (Nat × Nat) :=
  if extradata.length < 2 then some (sample_rate, output_sample_rate)
  else
    let sri := ((extradata.getD 0 0 <<< 1) &&& 0xE) ||| (extradata.getD 1 0 >>> 7)
    if sri > 12 then some (sample_rate, output_sample_rate)
    else
      match aac_sample_rates.get? sri with
      | none => none
      | some r =>
        if extradata.length == 5 then
          let sri2 := (extradata.getD 4 0 >>> 3) &&& 0xF
          if sri2 > 12 then some (r, output_sample_rate)
          else
            match aac_sample_rates.get? sri2 with
            | none => none
            | some r2 => some (r, r2)
        else some (r, output_sample_rate)

/-! MXF KLV framing (mxf.c).  The input stream is the list of bytes still
to be read; a read consumes from its front.  A read that would run past
the end of the stream is modelled as the end-of-file condition the C loop
converts to AVERROR_IO at its next url_feof check. -/

/-- Read exactly n bytes, or fail at end of stream. -/
def getBytesR (n : Nat) (bs : List Nat) : Option (List Nat × List Nat) :=
  if n ≤ bs.length then some (bs.take n, bs.drop n) else none

/-- Big-endian accumulation of the long-form length bytes, as the loop
`size = size << 8 | get_byte(pb)` does over an int64 (the stored bit
pattern is the running value mod 2^64). -/
def berAccum (bytes : List Nat) : Nat :=
  bytes.foldl (fun acc b => acc * 256 + b % 256) 0

/-- Reinterpret a 64-bit pattern as the signed int64 the function
returns. -/
def int64OfNat (v : Nat) : Int :=
  if v % 2^64 < 2^63 then ((v % 2^64 : Nat) : Int)
  else ((v % 2^64 : Nat) : Int) - 2^64

/-- The uint64 bit pattern of an int64 value (klv->length stores the
decoded int64 into a uint64 field). -/
def u64OfInt (i : Int) : Nat := ((i % (2^64 : Int))).toNat

/-- klv_decode_ber_length: short form returns the 7 low bits; long form
reads `length & 0x7f` further bytes big-endian, or returns −1 when that
count exceeds 8.  `none` is end of stream. -/
def klv_decode_ber_length (bs : List Nat) : Option (Int × List Nat) :=
  match bs with
  | [] => none
  | length :: rest =>
    if (length % 256) >>> 7 ≠ 0 then
      let bytes_num := (length % 256) &&& 0x7f
      if bytes_num > 8 then some (-1, rest)
      else
        match getBytesR bytes_num rest with
        | none => none
        | some (lenBytes, rest2) => some (int64OfNat (berAccum lenBytes), rest2)
    else some (((length % 256) &&& 0x7f : Nat), rest)

/-- A BER long-form encoding with `n` length bytes carrying value `v`. -/
def berEncodeLong (n v : Nat) : List Nat := (0x80 ||| n) :: beBytes n v

/-! The essence reader (mxf.c). -/

/-- The 12-byte essence-element key leader. -/
def mxf_essence_element_key : List Nat :=
  [0x06, 0x0e, 0x2b, 0x34, 0x01, 0x02, 0x01, 0x01, 0x0d, 0x01, 0x03, 0x01]

structure KLVPacket where
  key : List Nat
  length : Nat
deriving DecidableEq, Repr

inductive KLVReadResult where
  | eof
  | err
  | ok (klv : KLVPacket) (rest : List Nat)
deriving DecidableEq, Repr

/-- klv_read_packet: 16 key bytes, then the BER length; `err` is the C
`return -1` on `klv->length == -1` (a uint64 comparison), `eof` a read
past the end of the stream. -/
def klv_read_packet (bs : List Nat) : KLVReadResult :=
  match getBytesR 16 bs with
  | none => .eof
  | some (key, rest) =>
    match klv_decode_ber_length rest with
    | none => .eof
    | some (len, rest2) =>
      if u64OfInt len = u64OfInt (-1) then .err
      else .ok ⟨key, u64OfInt len⟩ rest2

inductive MXFReadErr where
  | io
  | err
deriving DecidableEq, Repr

/-- mxf_get_stream_index: index of the first stream whose 4-byte
track_number (each stream is represented by it) equals the last 4 bytes
of the key. -/
def mxf_get_stream_index (streams : List (List Nat)) (key : List Nat) :
    Option Nat :=
  streams.findIdx? (fun tn => key.drop 12 == tn)

/-- The loop of mxf_read_packet, fuelled (each iteration consumes at
least 17 bytes, so the stream length bounds the iteration count).
Returns `(stream_index, packet bytes, remaining stream)`; `.error .io` is
AVERROR_IO at end of file, `.error .err` the `return -1` paths (bad KLV,
or an essence key matching no stream — the C reads the value into the
packet first and then discards the read by returning −1). -/
def mxf_read_packet_loop (streams : List (List Nat)) :
    Nat → List Nat → Except MXFReadErr (Nat × List Nat × List Nat)
  | 0, _ => .error .io
  | fuel+1, bs =>
    if bs.isEmpty then .error .io
    else
      match klv_read_packet bs with
      | .eof => .error .io
      | .err => .error .err
      | .ok klv rest =>
        if klv.key.take 12 = mxf_essence_element_key then
          match mxf_get_stream_index streams klv.key with
          | some i => .ok (i, rest.take klv.length, rest.drop klv.length)
          | none => .error .err
        else mxf_read_packet_loop streams fuel (rest.drop klv.length)

def mxf_read_packet (streams : List (List Nat)) (bs : List Nat) :
    Except MXFReadErr (Nat × List Nat × List Nat) :=
  mxf_read_packet_loop streams (bs.length + 1) bs

/-- One KLV of the stream, for stating what the byte-level reader does. -/
structure KLVItem where
  key : List Nat
  value : List Nat
deriving DecidableEq, Repr

/-- A KLV serialised with an 8-length-byte BER length (one valid encoding;
the reader accepts any, see klv_decode_berEncodeLong). -/
def serializeKLV (k : KLVItem) : List Nat :=
  k.key ++ berEncodeLong 8 k.value.length ++ k.value

def serializeKLVs (ks : List KLVItem) : List Nat :=
  ks.flatMap serializeKLV

/-- Modelled from the spec: the claim's description of the read loop over
whole KLVs — skip every KLV whose key does not begin with the
essence-element prefix, stop at the first that does and route it by the
last 4 key bytes, and report an I/O error at end of file. -/
def scanKLVs (streams : List (List Nat)) :
    List KLVItem → Except MXFReadErr (Nat × List Nat × List KLVItem)
  | [] => .error .io
  | k :: rest =>
    if k.key.take 12 = mxf_essence_element_key then
      match mxf_get_stream_index streams k.key with
      | some i => .ok (i, k.value, rest)
      | none => .error .err
    else scanKLVs streams rest

/-! Structural metadata (mxf.c).  Pointers are `Option`s; UIDs are byte
lists (memcmp of two 16-byte fields is list equality); dereferencing a
null pointer — which the C does without checks in several places — is the
`crash` outcome. -/

inductive MXFPackageType where
  | MaterialPackage
  | SourcePackage
deriving DecidableEq, Repr

inductive MXFStructuralComponentType where
  | Timecode
  | SourceClip
deriving DecidableEq, Repr

structure MXFStructuralComponent where
  uid : List Nat
  source_package_uid : List Nat
  data_definition_ul : List Nat
  duration : Int
  start_position : Int
  source_track_id : Int
  type : MXFStructuralComponentType
deriving DecidableEq, Repr

structure MXFSequence where
  uid : List Nat
  data_definition_ul : List Nat
  structural_components : List (Option MXFStructuralComponent)
  duration : Int
deriving DecidableEq, Repr

structure MXFTrack where
  uid : List Nat
  sequence : Option MXFSequence
  track_id : Int
  track_number : List Nat
  edit_rate_num : Int
  edit_rate_den : Int
deriving DecidableEq, Repr

/-- MXFDescriptor is recursive through its sub-descriptor slots, so it is
an inductive with projection functions. -/
inductive MXFDescriptor where
  | mk (uid : List Nat) (essence_container_ul : List Nat)
       (essence_codec_ul : List Nat)
       (sample_rate_num sample_rate_den : Int)
       (aspect_ratio_num aspect_ratio_den : Int)
       (width height channels bits_per_sample : Int)
       (linked_track_id : Int)
       (sub_descriptors : List (Option MXFDescriptor))

def MXFDescriptor.essence_codec_ul : MXFDescriptor → List Nat
  | .mk _ _ cc _ _ _ _ _ _ _ _ _ _ => cc

def MXFDescriptor.sample_rate_num : MXFDescriptor → Int
  | .mk _ _ _ srn _ _ _ _ _ _ _ _ _ => srn

def MXFDescriptor.sample_rate_den : MXFDescriptor → Int
  | .mk _ _ _ _ srd _ _ _ _ _ _ _ _ => srd

def MXFDescriptor.width : MXFDescriptor → Int
  | .mk _ _ _ _ _ _ _ w _ _ _ _ _ => w

def MXFDescriptor.height : MXFDescriptor → Int
  | .mk _ _ _ _ _ _ _ _ h _ _ _ _ => h

def MXFDescriptor.channels : MXFDescriptor → Int
  | .mk _ _ _ _ _ _ _ _ _ ch _ _ _ => ch

def MXFDescriptor.bits_per_sample : MXFDescriptor → Int
  | .mk _ _ _ _ _ _ _ _ _ _ bps _ _ => bps

def MXFDescriptor.linked_track_id : MXFDescriptor → Int
  | .mk _ _ _ _ _ _ _ _ _ _ _ lt _ => lt

def MXFDescriptor.sub_descriptors : MXFDescriptor → List (Option MXFDescriptor)
  | .mk _ _ _ _ _ _ _ _ _ _ _ _ subs => subs

structure MXFPackage where
  uid : List Nat
  package_uid : List Nat
  tracks : List (Option MXFTrack)
  descriptor : Option MXFDescriptor
  type : MXFPackageType

structure MXFContextM where
  packages : List (Option MXFPackage)

inductive CodecID where
  | NONE
  | MPEG2VIDEO
  | DVVIDEO
  | PCM_S16LE
  | PCM_S16BE
  | PCM_S24LE
  | PCM_S32LE
  | PCM_S24BE
  | PCM_S32BE
deriving DecidableEq, Repr

def picture_essence_track_ul : List Nat :=
  [0x06,0x0E,0x2B,0x34,0x04,0x01,0x01,0x01,0x01,0x03,0x02,0x02,0x01,0x00,0x00,0x00]

def sound_essence_track_ul : List Nat :=
  [0x06,0x0E,0x2B,0x34,0x04,0x01,0x01,0x01,0x01,0x03,0x02,0x02,0x02,0x00,0x00,0x00]

def mxf_codec_uls : List (List Nat × CodecID) :=
  [([0x06,0x0E,0x2B,0x34,0x04,0x01,0x01,0x03,0x04,0x01,0x02,0x02,0x01,0x02,0x02,0x00], .MPEG2VIDEO),
   ([0x06,0x0E,0x2B,0x34,0x04,0x01,0x01,0x03,0x04,0x01,0x02,0x02,0x01,0x04,0x03,0x00], .MPEG2VIDEO),
   ([0x06,0x0E,0x2B,0x34,0x04,0x01,0x01,0x03,0x04,0x01,0x02,0x02,0x01,0x02,0x03,0x00], .MPEG2VIDEO),
   ([0x06,0x0E,0x2B,0x34,0x04,0x01,0x01,0x01,0x04,0x01,0x02,0x02,0x01,0x02,0x01,0x05], .MPEG2VIDEO),
   ([0x06,0x0E,0x2B,0x34,0x04,0x01,0x01,0x01,0x04,0x01,0x02,0x02,0x01,0x02,0x01,0x01], .MPEG2VIDEO),
   ([0x06,0x0E,0x2B,0x34,0x04,0x01,0x01,0x01,0x04,0x01,0x02,0x02,0x02,0x02,0x04,0x00], .DVVIDEO),
   ([0x06,0x0E,0x2B,0x34,0x04,0x01,0x01,0x01,0x04,0x01,0x02,0x02,0x02,0x02,0x02,0x00], .DVVIDEO),
   ([0x06,0x0E,0x2B,0x34,0x04,0x01,0x01,0x01,0x04,0x01,0x02,0x02,0x02,0x01,0x02,0x00], .DVVIDEO),
   ([0x06,0x0E,0x2B,0x34,0x04,0x01,0x01,0x01,0x04,0x02,0x02,0x01,0x7F,0x00,0x00,0x00], .PCM_S16LE),
   ([0x06,0x0E,0x2B,0x34,0x04,0x01,0x01,0x07,0x04,0x02,0x02,0x01,0x7E,0x00,0x00,0x00], .PCM_S16BE)]

/-- mxf_get_codec_id: walks the table while the entry's id is not the NONE
sentinel (the C array has no sentinel row, so the C loop reads past the
array end; the model stops at the table end with NONE, the intended
behaviour). -/
def mxf_get_codec_id : List (List Nat × CodecID) → List Nat → CodecID
  | [], _ => CodecID.NONE
  | (u, id) :: rest, uid =>
    if id = CodecID.NONE then CodecID.NONE
    else if u = uid then id
    else mxf_get_codec_id rest uid

def AV_NOPTS_VALUE : Int := -(2^63)

structure AVStreamMXF where
  id : Int
  st_duration : Int
  start_time : Int
  time_base_num : Int
  time_base_den : Int
  codec_type : CodecType
  codec_id : CodecID
  width : Int
  height : Int
  channels : Int
  bits_per_sample : Int
  sample_rate : Int
deriving DecidableEq, Repr

inductive MXFParseResult where
  | ok (streams : List AVStreamMXF)
  | err
  | crash
deriving DecidableEq, Repr

/-- The material-package search: examines each slot's `type`, crashing on
a null slot (the C dereferences `mxf->packages[i]->type` unchecked). -/
def findMaterialPackage : List (Option MXFPackage) → Option (Option MXFPackage)
  | [] => some none
  | none :: _ => none
  | some p :: rest =>
    if p.type = MXFPackageType.MaterialPackage then some (some p)
    else findMaterialPackage rest

/-- The source-package search by package_uid (`mxf->packages[k]->package_uid`,
unchecked null slots crash). -/
def findSourcePackageByUID (uid : List Nat) :
    List (Option MXFPackage) → Option (Option MXFPackage)
  | [] => some none
  | none :: _ => none
  | some p :: rest =>
    if p.package_uid = uid then some (some p)
    else findSourcePackageByUID uid rest

/-- The source-track search by track_id (`source_package->tracks[k]->track_id`,
unchecked null slots crash). -/
def findTrackById (tid : Int) : List (Option MXFTrack) → Option (Option MXFTrack)
  | [] => some none
  | none :: _ => none
  | some t :: rest =>
    if t.track_id = tid then some (some t) else findTrackById tid rest

/-- The sub-descriptor search: the C checks each slot for null here, so
null slots are skipped, and the first sub-descriptor with the wanted
linked_track_id wins. -/
def findSubDescriptor (tid : Int) : List (Option MXFDescriptor) → Option MXFDescriptor
  | [] => none
  | none :: rest => findSubDescriptor tid rest
  | some d :: rest =>
    if d.linked_track_id = tid then some d else findSubDescriptor tid rest

/-- The component loop of mxf_parse_structural_metadata for one material
track.  `component` is overwritten by every slot examined (resolved or
not), `source_package` persists from earlier tracks (it is declared at
function scope in the C), `source_track` persists from earlier components
of the same track; the two `break`s fire only when the respective pointer
is null after the search.  Outer `none` is a crash in one of the
unchecked-null scans. -/
def componentLoop (packages : List (Option MXFPackage)) :
    List (Option MXFStructuralComponent) → Option MXFStructuralComponent →
    Option MXFPackage → Option MXFTrack →
    Option (Option MXFStructuralComponent × Option MXFPackage × Option MXFTrack)
  | [], component, source_package, source_track =>
    some (component, source_package, source_track)
  | c :: rest, _, source_package, source_track =>
    match c with
    | none => componentLoop packages rest c source_package source_track
    | some comp =>
      if comp.type ≠ MXFStructuralComponentType.SourceClip then
        componentLoop packages rest c source_package source_track
      else
        match findSourcePackageByUID comp.source_package_uid packages with
        | none => none
        | some found =>
          let source_package := match found with
            | some p => some p
            | none => source_package
          match source_package with
          | none => some (c, none, source_track)
          | some sp =>
            match findTrackById comp.source_track_id sp.tracks with
            | none => none
            | some tfound =>
              let source_track := match tfound with
                | some t => some t
                | none => source_track
              match source_track with
              | none => some (c, some sp, none)
              | some _ => componentLoop packages rest c (some sp) source_track

/-- The per-track body of mxf_parse_structural_metadata after the
component loop: emit a stream (its fields from the last-assigned
component, the material track's edit rate, the source track's sequence,
and the descriptor — looked up in a MultipleDescriptor's subs by
linked_track_id, else the package's lone descriptor; a missing descriptor
leaves the already-created stream without codec data).  Returns the
carried-over source_package and the emitted stream, `none` for a crash
(null material track, sequence, component, source-track sequence, or a
zero sample-rate denominator in the C integer division). -/
def processTrack (packages : List (Option MXFPackage))
    (source_package0 : Option MXFPackage) (mtrack : Option MXFTrack) :
    Option (Option MXFPackage × Option AVStreamMXF) :=
  match mtrack with
  | none => none
  | some material_track =>
    match material_track.sequence with
    | none => none
    | some seq =>
      match componentLoop packages seq.structural_components none
          source_package0 none with
      | none => none
      | some (component, source_package, source_track) =>
        match source_track with
        | none => some (source_package, none)
        | some strack =>
          match component with
          | none => none
          | some comp =>
            match strack.sequence with
            | none => none
            | some ssq =>
              let st_duration :=
                if comp.duration = -1 then AV_NOPTS_VALUE else comp.duration
              let codec_type :=
                if ssq.data_definition_ul = picture_essence_track_ul then
                  CodecType.video
                else if ssq.data_definition_ul = sound_essence_track_ul then
                  CodecType.audio
                else CodecType.data
              match source_package with
              | none => none
              | some sp =>
                let descriptor : Option MXFDescriptor :=
                  match sp.descriptor with
                  | none => none
                  | some d =>
                    if d.sub_descriptors.length > 0 then
                      findSubDescriptor strack.track_id d.sub_descriptors
                    else some d
                let base : AVStreamMXF :=
                  ⟨strack.track_id, st_duration, comp.start_position,
                    material_track.edit_rate_num, material_track.edit_rate_den,
                    codec_type, CodecID.NONE, 0, 0, 0, 0, 0⟩
                match descriptor with
                | none => some (some sp, some base)
                | some d =>
                  let codec_id := mxf_get_codec_id mxf_codec_uls d.essence_codec_ul
                  if codec_type = CodecType.video then
                    some (some sp, some { base with
                      codec_id := codec_id,
                      width := d.width,
                      height := d.height })
                  else if codec_type = CodecType.audio then
                    if d.sample_rate_den = 0 then none
                    else
                      let cid2 :=
                        if codec_id = CodecID.PCM_S16LE then
                          if d.bits_per_sample = 24 then CodecID.PCM_S24LE
                          else if d.bits_per_sample = 32 then CodecID.PCM_S32LE
                          else codec_id
                        else if codec_id = CodecID.PCM_S16BE then
                          if d.bits_per_sample = 24 then CodecID.PCM_S24BE
                          else if d.bits_per_sample = 32 then CodecID.PCM_S32BE
                          else codec_id
                        else codec_id
                      some (some sp, some { base with
                        codec_id := cid2,
                        channels := d.channels,
                        bits_per_sample := d.bits_per_sample,
                        sample_rate := d.sample_rate_num / d.sample_rate_den })
                  else some (some sp, some { base with codec_id := codec_id })

/-- The material-track loop, threading the function-scoped source_package
through the tracks. -/
def trackLoop (packages : List (Option MXFPackage)) :
    List (Option MXFTrack) → Option MXFPackage → List AVStreamMXF →
    MXFParseResult
  | [], _, streams => .ok streams
  | t :: rest, source_package, streams =>
    match processTrack packages source_package t with
    | none => .crash
    | some (sp, none) => trackLoop packages rest sp streams
    | some (sp, some st) => trackLoop packages rest sp (streams ++ [st])

/-- mxf_parse_structural_metadata: locate the first MaterialPackage
(`err` = the C `return -1` when none exists), then walk its tracks. -/
def mxf_parse_structural_metadata (mxf : MXFContextM) : MXFParseResult :=
  match findMaterialPackage mxf.packages with
  | none => .crash
  | some none => .err
  | some (some material_package) =>
    trackLoop mxf.packages material_package.tracks none []

/-! Theorems. -/

theorem beBytes_length (n v : Nat) : (beBytes n v).length = n := by
  induction n generalizing v with
  | zero => rfl
  | succ n ih => simp [beBytes, ih]

theorem beVal_aux (n v acc : Nat) :
    (beBytes n v).foldl (fun a b => a * 256 + b % 256) acc
      = acc * 2 ^ (8*n) + v % 2 ^ (8*n) := by
  induction n generalizing acc with
  | zero => simp [beBytes, beVal, Nat.mod_one]
  | succ n ih =>
    have h256 : (v >>> (8*n)) % 256 % 256 = (v >>> (8*n)) % 256 :=
      Nat.mod_mod_of_dvd _ dvd_rfl
    rw [beBytes, List.foldl_cons, ih]
    rw [h256, Nat.shiftRight_eq_div_pow]
    have hsplit : v % 2 ^ (8*(n+1)) = v % 2 ^ (8*n) + 2 ^ (8*n) * (v / 2 ^ (8*n) % 256) := by
      have : (2:Nat) ^ (8*(n+1)) = 2 ^ (8*n) * 256 := by ring
      rw [this, Nat.mod_mul]
    rw [hsplit]
    ring

theorem beVal_beBytes (n v : Nat) : beVal (beBytes n v) = v % 2 ^ (8*n) := by
  have := beVal_aux n v 0
  simpa [beVal] using this

theorem beVal_beBytes_of_lt {n v : Nat} (h : v < 2 ^ (8*n)) :
    beVal (beBytes n v) = v := by
  rw [beVal_beBytes, Nat.mod_eq_of_lt h]

theorem av_log2F_eq_log2 (fuel n : Nat) (h : n ≤ fuel) :
    av_log2F fuel n = Nat.log2 n := by
  induction fuel generalizing n with
  | zero =>
    have : n = 0 := by omega
    subst this
    simp [av_log2F, Nat.log2]
  | succ fuel ih =>
    rw [av_log2F, Nat.log2]
    by_cases h2 : n ≥ 2
    · rw [if_pos h2, if_pos h2, ih (n / 2) (by omega)]
    · rw [if_neg h2, if_neg h2]

theorem av_log2_eq_log2 (n : Nat) : av_log2 n = Nat.log2 n :=
  av_log2F_eq_log2 n n le_rfl

theorem ebmlSizeLoopF_ge (fuel v b : Nat) : b ≤ ebmlSizeLoopF fuel v b := by
  induction fuel generalizing v b with
  | zero => exact le_rfl
  | succ fuel ih =>
    rw [ebmlSizeLoopF]
    split
    · exact le_rfl
    · exact le_trans (Nat.le_succ b) (ih (v >>> 7) (b+1))

theorem ebmlSizeLoopF_shift (fuel v b : Nat) (hf : v ≤ fuel) :
    v >>> (7 * (ebmlSizeLoopF fuel v b - b)) = 0 := by
  induction fuel generalizing v b with
  | zero =>
    have : v = 0 := by omega
    simp [this]
  | succ fuel ih =>
    rw [ebmlSizeLoopF]
    split
    · next h => simp [h]
    · next h =>
      have hge : b + 1 ≤ ebmlSizeLoopF fuel (v >>> 7) (b+1) := ebmlSizeLoopF_ge _ _ _
      have hsm : v >>> 7 ≤ fuel := by
        have : v >>> 7 < v := by
          simp only [Nat.shiftRight_eq_div_pow]
          exact Nat.div_lt_self (Nat.pos_of_ne_zero h) (by norm_num)
        omega
      have ihx := ih (v >>> 7) (b+1) hsm
      have harith : 7 * (ebmlSizeLoopF fuel (v >>> 7) (b+1) - b) =
          7 + 7 * (ebmlSizeLoopF fuel (v >>> 7) (b+1) - (b+1)) := by omega
      rw [harith, Nat.shiftRight_add]
      exact ihx

theorem ebml_size_bytes_pos (size : Nat) : 1 ≤ ebml_size_bytes size :=
  ebmlSizeLoopF_ge _ _ _

/-- The size codec's central bound: `size + 1 < 2 ^ (7 * ebml_size_bytes size)`. -/
theorem ebml_size_bytes_bound (size : Nat) :
    size + 1 < 2 ^ (7 * ebml_size_bytes size) := by
  have h := ebmlSizeLoopF_shift ((size+1) >>> 7) ((size+1) >>> 7) 1 le_rfl
  have hge : 1 ≤ ebmlSizeLoopF ((size+1) >>> 7) ((size+1) >>> 7) 1 :=
    ebmlSizeLoopF_ge _ _ _
  set B := ebmlSizeLoopF ((size+1) >>> 7) ((size+1) >>> 7) 1 with hB
  have harith : 7 + 7 * (B - 1) = 7 * B := by omega
  have h2 : (size+1) >>> (7 + 7 * (B - 1)) = 0 := by
    rw [Nat.shiftRight_add]
    exact h
  rw [harith] at h2
  simp only [Nat.shiftRight_eq_div_pow] at h2
  have hlt : size + 1 < 2 ^ (7 * B) :=
    (Nat.div_eq_zero_iff (Nat.pos_pow_of_pos _ (by norm_num))).mp h2
  simpa [ebml_size_bytes, ebmlSizeLoop, ← hB] using hlt

theorem lor_two_pow_of_lt {a n : Nat} (h : a < 2^n) : a ||| 2^n = a + 2^n := by
  induction n generalizing a with
  | zero =>
    have ha : a = 0 := by omega
    subst ha; decide
  | succ n ih =>
    have ha := Nat.bit_decomp a
    have hd : Nat.div2 a < 2 ^ n := by
      have := Nat.bit_val (Nat.bodd a) (Nat.div2 a)
      rw [ha] at this
      have h2 : (2:Nat)^(n+1) = 2 * 2^n := by ring
      cases hbo : Nat.bodd a <;> simp [hbo] at this <;> omega
    rw [← ha]
    have h2 : (2:Nat)^(n+1) = Nat.bit false (2^n) := by
      simp [Nat.bit_val]; ring
    rw [h2, Nat.lor_bit]
    simp only [Bool.or_false]
    rw [ih hd]
    simp [Nat.bit_val]
    ring

theorem put_buffer_pos (pb : ByteIOCtx) (bs : List Nat) :
    (put_buffer pb bs).pos = pb.pos + bs.length := by
  induction bs generalizing pb with
  | nil => simp [put_buffer]
  | cons b bs ih =>
    show (put_buffer (put_byte pb b) bs).pos = pb.pos + (b :: bs).length
    rw [ih]
    simp [put_byte]
    omega

theorem put_buffer_read_out (pb : ByteIOCtx) (bs : List Nat) (p : Nat)
    (h : p < pb.pos ∨ pb.pos + bs.length ≤ p) :
    readByte (put_buffer pb bs) p = readByte pb p := by
  induction bs generalizing pb with
  | nil => rfl
  | cons b bs ih =>
    show readByte (put_buffer (put_byte pb b) bs) p = readByte pb p
    rw [ih]
    · show readByte ⟨(pb.pos, b % 256) :: pb.written, pb.pos + 1⟩ p = readByte pb p
      simp only [readByte, List.find?]
      have hne : (pb.pos == p) = false := by
        simp only [List.length_cons] at h
        simp only [beq_eq_false_iff_ne, ne_eq]
        omega
      rw [hne]
    · simp only [List.length_cons] at h
      simp only [put_byte, List.length_cons]
      omega

theorem put_buffer_read_in (pb : ByteIOCtx) (bs : List Nat) (i : Nat)
    (h : i < bs.length) :
    readByte (put_buffer pb bs) (pb.pos + i) = some (bs.get ⟨i, h⟩ % 256) := by
  induction bs generalizing pb i with
  | nil => simp at h
  | cons b bs ih =>
    show readByte (put_buffer (put_byte pb b) bs) (pb.pos + i) = _
    cases i with
    | zero =>
      rw [put_buffer_read_out]
      · simp [readByte, put_byte, List.find?]
      · left
        simp [put_byte]
    | succ i =>
      have hlen : i < bs.length := by simpa using h
      have hrec := ih (put_byte pb b) i hlen
      have harith : pb.pos + (i + 1) = (put_byte pb b).pos + i := by
        simp [put_byte]
        omega
      have hgoal : (b :: bs).get ⟨i + 1, h⟩ = bs.get ⟨i, hlen⟩ := rfl
      rw [harith, hgoal]
      exact hrec

theorem ebmlSizePayload_not_unknown (s minbytes : Nat) (hs : s ≤ 2^56 - 2) :
    ebmlSizePayload s minbytes =
      beBytes (max minbytes (ebml_size_bytes s))
        (s ||| (1 <<< ((max minbytes (ebml_size_bytes s)) * 7))) := by
  have hlt : ¬ (s ≥ 2^56 - 1) := by omega
  simp only [ebmlSizePayload, if_neg hlt]

/-- C5 — for every size `s ≤ 2^56 − 2` and caller minimum `minbytes ≤ 8`,
put_ebml_size emits exactly `max minbytes (ebml_size_bytes s)` bytes whose
decoded value (marker bit stripped) is `s` again, and for every
`s ≥ 2^56 − 1` the single unknown-size byte 0xFF is emitted regardless of
`minbytes`. -/
theorem c5_ebml_size_roundtrip (s minbytes : Nat) :
    (minbytes ≤ 8 → s ≤ 2^56 - 2 →
      (ebmlSizePayload s minbytes).length = max minbytes (ebml_size_bytes s) ∧
      decodeEbmlSize (ebmlSizePayload s minbytes) = s) ∧
    (2^56 - 1 ≤ s → ebmlSizePayload s minbytes = [0xFF]) := by
  constructor
  · intro _ hs
    set b := max minbytes (ebml_size_bytes s) with hb
    have hb1 : 1 ≤ b := le_trans (ebml_size_bytes_pos s) (le_max_right _ _)
    have hbound : s + 1 < 2 ^ (7 * b) := by
      have h1 := ebml_size_bytes_bound s
      have h2 : (2:Nat) ^ (7 * ebml_size_bytes s) ≤ 2 ^ (7 * b) :=
        Nat.pow_le_pow_right (by norm_num)
          (Nat.mul_le_mul_left 7 (le_max_right _ _))
      omega
    have hslt : s < 2 ^ (b * 7) := by
      rw [Nat.mul_comm b 7]; omega
    have hshift : (1 : Nat) <<< (b * 7) = 2 ^ (b * 7) := by
      simp [Nat.shiftLeft_eq]
    have hor : s ||| (1 <<< (b * 7)) = s + 2 ^ (b * 7) := by
      rw [hshift]
      exact lor_two_pow_of_lt hslt
    have hpay := ebmlSizePayload_not_unknown s minbytes hs
    rw [← hb] at hpay
    have hsum : s + 2 ^ (b * 7) < 2 ^ (8 * b) := by
      have h1 : (2:Nat) ^ (b * 7) * 2 ≤ 2 ^ (8 * b) := by
        have : b * 7 + 1 ≤ 8 * b := by omega
        calc (2:Nat) ^ (b * 7) * 2 = 2 ^ (b * 7 + 1) := by ring
        _ ≤ 2 ^ (8 * b) := Nat.pow_le_pow_right (by norm_num) this
      have h2 : s < 2 ^ (b * 7) := hslt
      omega
    constructor
    · rw [hpay, hor, beBytes_length]
    · rw [hpay, hor, decodeEbmlSize, beBytes_length,
        beVal_beBytes_of_lt hsum, Nat.mul_comm 7 b]
      omega
  · intro hge
    simp only [ebmlSizePayload, if_pos (by omega : s ≥ 2^56 - 1)]
    decide

/-- Witness for C5 at `s = 300`, `minbytes = 3`. -/
theorem c5_ebml_size_roundtrip_witness :
    (ebmlSizePayload 300 3).length = max 3 (ebml_size_bytes 300) ∧
    decodeEbmlSize (ebmlSizePayload 300 3) = 300 :=
  (c5_ebml_size_roundtrip 300 3).1 (by decide) (by decide)

set_option maxRecDepth 40000 in
/-- C6 — code-bug exhibit.  Start a SeekHead with numelements = 1 at
position 1000: 1·28+13 = 41 bytes are reserved, a second addition fails,
the write returns the reserved position and restores the cursor — but with
one maximal (28-byte) entry (a 4-byte element id and a position needing 8
bytes) the SeekHead spans only 40 bytes, the 1 leftover byte is below the
2-byte minimum of a Void element, `put_ebml_void(1)` writes nothing, and
the final byte of the reservation (position 1040) is covered by no
element, contrary to the claim (and to the source comment that 3 spare
bytes guarantee the Void fits). -/
theorem c6_seekhead_reservation_not_filled :
    let pb0 : ByteIOCtx := ⟨[], 1000⟩
    let sp := mkv_start_seekhead pb0 0 1
    let added := mkv_add_seekhead_entry sp.1 MATROSKA_ID_CLUSTER (2^56)
    let sh1 := added.getD sp.1
    let res := mkv_write_seekhead (url_fseek_set sp.2 5000) sh1
    sp.1.reserved_size = 41 ∧
    sp.1.filepos = 1000 ∧
    sp.2.pos = 1041 ∧
    added.isSome = true ∧
    mkv_add_seekhead_entry sh1 MATROSKA_ID_CUES 0 = none ∧
    res.2 = 1000 ∧
    res.1.pos = 5000 ∧
    (readBytesList res.1 1000 40).all (fun b => b.isSome) = true ∧
    readByte res.1 1040 = none := by
  decide

theorem dropWhile_head_false {α : Type} (p : α → Bool) :
    ∀ (l : List α) (d : α) (l2 : List α), l.dropWhile p = d :: l2 → p d = false := by
  intro l
  induction l with
  | nil => intro d l2 h; simp [List.dropWhile] at h
  | cons a l ih =>
    intro d l2 h
    rw [List.dropWhile_cons] at h
    by_cases hp : p a
    · rw [if_pos hp] at h
      exact ih d l2 h
    · rw [if_neg hp] at h
      cases h
      simpa using hp

theorem length_dropWhile_le {α : Type} (p : α → Bool) (l : List α) :
    (l.dropWhile p).length ≤ l.length := by
  induction l with
  | nil => simp [List.dropWhile]
  | cons a l ih =>
    rw [List.dropWhile_cons]
    by_cases hp : p a
    · rw [if_pos hp]
      exact le_trans ih (by simp)
    · rw [if_neg hp]

theorem cuesLoopF_eq_fold (fuel : Nat) (pb : ByteIOCtx) (es : List mkv_cuepoint) :
    cuesLoopF fuel pb es =
      (cuePointsEmittedF fuel es).foldl
        (fun pb g => writeCuePointBytes pb g.1 g.2) pb := by
  induction fuel generalizing pb es with
  | zero => cases es <;> rfl
  | succ fuel ih =>
    cases es with
    | nil => rfl
    | cons e rest =>
      rw [cuesLoopF, cuePointsEmittedF, List.foldl_cons]
      exact ih _ _

theorem cuePointsEmittedF_flat (fuel : Nat) (es : List mkv_cuepoint)
    (hf : es.length ≤ fuel) :
    (cuePointsEmittedF fuel es).flatMap Prod.snd = es := by
  induction fuel generalizing es with
  | zero =>
    have : es = [] := by
      cases es with
      | nil => rfl
      | cons a l => simp at hf
    simp [this, cuePointsEmittedF]
  | succ fuel ih =>
    cases es with
    | nil => rfl
    | cons e rest =>
      rw [cuePointsEmittedF, List.flatMap_cons]
      have hlen : (rest.dropWhile (fun x => x.pts == e.pts)).length ≤ fuel := by
        have h1 := length_dropWhile_le (fun x => x.pts == e.pts) rest
        simp only [List.length_cons] at hf
        omega
      rw [ih _ hlen]
      simp [List.takeWhile_append_dropWhile]

theorem cuePointsEmittedF_runs (fuel : Nat) (es : List mkv_cuepoint)
    (hf : es.length ≤ fuel) :
    ∀ g ∈ cuePointsEmittedF fuel es, g.2 ≠ [] ∧ ∀ x ∈ g.2, x.pts = g.1 := by
  induction fuel generalizing es with
  | zero =>
    cases es with
    | nil => simp [cuePointsEmittedF]
    | cons a l => simp at hf
  | succ fuel ih =>
    cases es with
    | nil => simp [cuePointsEmittedF]
    | cons e rest =>
      rw [cuePointsEmittedF]
      intro g hg
      rcases List.mem_cons.mp hg with hg1 | hg2
      · subst hg1
        refine ⟨by simp, ?_⟩
        intro x hx
        rcases List.mem_cons.mp hx with hx1 | hx2
        · simp [hx1]
        · have := List.mem_takeWhile_imp hx2
          simpa using this
      · have hlen : (rest.dropWhile (fun x => x.pts == e.pts)).length ≤ fuel := by
          have h1 := length_dropWhile_le (fun x => x.pts == e.pts) rest
          simp only [List.length_cons] at hf
          omega
        exact ih _ hlen g hg2

theorem cuePointsEmittedF_chain (fuel : Nat) (es : List mkv_cuepoint)
    (hf : es.length ≤ fuel) :
    List.Chain' (fun a b : Nat × List mkv_cuepoint => a.1 ≠ b.1)
      (cuePointsEmittedF fuel es) := by
  induction fuel generalizing es with
  | zero =>
    cases es with
    | nil => simp [cuePointsEmittedF]
    | cons a l => simp at hf
  | succ fuel ih =>
    cases es with
    | nil => simp [cuePointsEmittedF]
    | cons e rest =>
      rw [cuePointsEmittedF]
      have hlen : (rest.dropWhile (fun x => x.pts == e.pts)).length ≤ fuel := by
        have h1 := length_dropWhile_le (fun x => x.pts == e.pts) rest
        simp only [List.length_cons] at hf
        omega
      rw [List.chain'_cons']
      refine ⟨?_, ih _ hlen⟩
      intro y hy
      cases hdw : rest.dropWhile (fun x => x.pts == e.pts) with
      | nil =>
        rw [hdw] at hy
        cases fuel <;> simp [cuePointsEmittedF] at hy
      | cons d l2 =>
        rw [hdw] at hy hlen
        have hfpos : 0 < fuel := by
          simp only [List.length_cons] at hlen
          omega
        obtain ⟨fuel', rfl⟩ : ∃ f, fuel = f + 1 := ⟨fuel - 1, by omega⟩
        simp only [cuePointsEmittedF, Option.mem_def, List.head?_cons,
          Option.some.injEq] at hy
        have hd := dropWhile_head_false (fun x => x.pts == e.pts) rest d l2 hdw
        simp only [beq_eq_false_iff_ne, ne_eq] at hd
        subst hy
        simp only [ne_eq]
        intro hcontra
        exact hd hcontra.symm

/-- C7 — mkv_write_cues groups its entries into CuePoints: the entry loop
is the fold of the per-CuePoint writer over `cuePointsEmitted`, and those
emitted groups are exactly the maximal contiguous runs of equal-pts
entries, in input order — their concatenation restores the entry list,
every group is non-empty with all members carrying the group's pts, and
adjacent groups have different pts (so equal-pts entries that are not
contiguous stay in separate CuePoints); each group's children are its run
entries in order, each written with its tracknum and cluster position. -/
theorem c7_cues_grouping (pb : ByteIOCtx) (cues : mkv_cues) :
    (mkv_write_cues pb cues).2 = pb.pos ∧
    (∀ pb0 : ByteIOCtx, cuesLoopF cues.entries.length pb0 cues.entries =
      (cuePointsEmitted cues.entries).foldl
        (fun pb g => writeCuePointBytes pb g.1 g.2) pb0) ∧
    (cuePointsEmitted cues.entries).flatMap Prod.snd = cues.entries ∧
    (∀ g ∈ cuePointsEmitted cues.entries, g.2 ≠ [] ∧ ∀ x ∈ g.2, x.pts = g.1) ∧
    List.Chain' (fun a b : Nat × List mkv_cuepoint => a.1 ≠ b.1)
      (cuePointsEmitted cues.entries) := by
  refine ⟨rfl, ?_, ?_, ?_, ?_⟩
  · intro pb0
    exact cuesLoopF_eq_fold _ _ _
  · exact cuePointsEmittedF_flat _ _ le_rfl
  · exact cuePointsEmittedF_runs _ _ le_rfl
  · exact cuePointsEmittedF_chain _ _ le_rfl

/-- Witness for C7 on four entries whose pts are 1,1,2,1: the two leading
equal-pts entries coalesce, the trailing pts-1 entry stays separate. -/
theorem c7_cues_grouping_witness :
    cuePointsEmitted [⟨1,1,10⟩, ⟨1,2,10⟩, ⟨2,1,20⟩, ⟨1,3,30⟩] =
      [(1, [⟨1,1,10⟩, ⟨1,2,10⟩]), (2, [⟨2,1,20⟩]), (1, [⟨1,3,30⟩])] ∧
    (cuePointsEmitted [⟨1,1,10⟩, ⟨1,2,10⟩, ⟨2,1,20⟩, ⟨1,3,30⟩]).flatMap Prod.snd =
      [⟨1,1,10⟩, ⟨1,2,10⟩, ⟨2,1,20⟩, ⟨1,3,30⟩] ∧
    List.Chain' (fun a b : Nat × List mkv_cuepoint => a.1 ≠ b.1)
      (cuePointsEmitted [⟨1,1,10⟩, ⟨1,2,10⟩, ⟨2,1,20⟩, ⟨1,3,30⟩]) ∧
    (mkv_cuepoint.mk 1 2 10).pts = 1 := by
  have h := c7_cues_grouping ⟨[], 0⟩ ⟨0, [⟨1,1,10⟩, ⟨1,2,10⟩, ⟨2,1,20⟩, ⟨1,3,30⟩]⟩
  refine ⟨by decide, h.2.2.1, h.2.2.2.2, ?_⟩
  exact (h.2.2.2.1 (1, [⟨1,1,10⟩, ⟨1,2,10⟩]) (by decide)).2 ⟨1,2,10⟩ (by decide)

theorem put_buffer_read_lt (pb : ByteIOCtx) (bs : List Nat) (q : Nat)
    (h : q < pb.pos) : readByte (put_buffer pb bs) q = readByte pb q :=
  put_buffer_read_out pb bs q (Or.inl h)

theorem readByte_fseek (pb : ByteIOCtx) (p q : Nat) :
    readByte (url_fseek_set pb p) q = readByte pb q := rfl

theorem end_ebml_master_pos (pb : ByteIOCtx) (start : Nat) :
    (end_ebml_master pb start).pos = pb.pos := rfl

theorem end_ebml_master_read_lt (pb : ByteIOCtx) (start q : Nat)
    (h : q < start - 8) :
    readByte (end_ebml_master pb start) q = readByte pb q := by
  show readByte (put_buffer (url_fseek_set pb (start-8)) _) q = readByte pb q
  exact put_buffer_read_lt _ _ _ h

theorem start_ebml_master_pos (pb : ByteIOCtx) (id : Nat) :
    (start_ebml_master pb id).1.pos = pb.pos + ebml_id_size id + 8 ∧
    (start_ebml_master pb id).2 = pb.pos + ebml_id_size id + 8 := by
  constructor <;>
    simp [start_ebml_master, put_ebml_id, put_ebml_size_unknown, url_ftell,
      put_buffer_pos, idBytes, beBytes_length, unknownSizeBytes, Nat.add_assoc]

theorem start_ebml_master_read_lt (pb : ByteIOCtx) (id q : Nat)
    (h : q < pb.pos) :
    readByte (start_ebml_master pb id).1 q = readByte pb q := by
  show readByte (put_buffer (put_buffer pb _) _) q = readByte pb q
  rw [put_buffer_read_lt, put_buffer_read_lt]
  · exact h
  · have := put_buffer_pos pb (idBytes id)
    omega

theorem put_ebml_uint_pos (pb : ByteIOCtx) (id v : Nat) :
    (put_ebml_uint pb id v).pos = pb.pos + (uintElemBytes id v).length := by
  simp [put_ebml_uint, put_buffer_pos]

theorem blocks_read_lt (mkv : MatroskaMuxContext) (pb : ByteIOCtx)
    (codec_type : CodecType) (pkt : AVPacket) (keyframe : Bool) (q : Nat)
    (h : q < pb.pos) :
    readByte (mkv_write_packet_blocks mkv pb codec_type pkt keyframe).2 q =
      readByte pb q := by
  rw [mkv_write_packet_blocks]
  by_cases hct : codec_type ≠ CodecType.subtitle
  · simp only [if_pos hct]
    exact put_buffer_read_lt _ _ _ h
  · simp only [if_neg hct]
    have h1 := (start_ebml_master_pos pb MATROSKA_ID_BLOCKGROUP).1
    have h2 := (start_ebml_master_pos pb MATROSKA_ID_BLOCKGROUP).2
    rw [end_ebml_master_read_lt, put_ebml_uint, mkv_write_block,
      put_buffer_read_lt, put_buffer_read_lt, start_ebml_master_read_lt]
    · exact h
    · omega
    · rw [put_buffer_pos]
      omega
    · rw [h2]
      omega

theorem beBytes_mem_lt (n v : Nat) : ∀ x ∈ beBytes n v, x < 256 := by
  induction n generalizing v with
  | zero => simp [beBytes]
  | succ n ih =>
    intro x hx
    rcases List.mem_cons.mp hx with h1 | h2
    · subst h1
      exact Nat.mod_lt _ (by norm_num)
    · exact ih v x h2

theorem ebmlSizePayload_mem_lt (s minb : Nat) :
    ∀ x ∈ ebmlSizePayload s minb, x < 256 := by
  rw [ebmlSizePayload]
  split
  · exact beBytes_mem_lt _ _
  · exact beBytes_mem_lt _ _

theorem uintElemBytes_mem_lt (id v : Nat) :
    ∀ x ∈ uintElemBytes id v, x < 256 := by
  intro x hx
  rw [uintElemBytes] at hx
  rcases List.mem_append.mp hx with h1 | h2
  · rcases List.mem_append.mp h1 with h3 | h4
    · exact beBytes_mem_lt _ _ x h3
    · exact ebmlSizePayload_mem_lt _ _ x h4
  · exact beBytes_mem_lt _ _ x h2

theorem put_buffer_readBytesList (pb : ByteIOCtx) (bs : List Nat)
    (hlt : ∀ x ∈ bs, x < 256) :
    readBytesList (put_buffer pb bs) pb.pos bs.length = bs.map some := by
  apply List.ext_getElem
  · simp [readBytesList]
  · intro i h1 h2
    have hi : i < bs.length := by simpa using h2
    simp only [readBytesList]
    rw [List.getElem_map, List.getElem_range]
    have := put_buffer_read_in pb bs i hi
    rw [this]
    have hx : bs.get ⟨i, hi⟩ < 256 := hlt _ (List.get_mem bs i hi)
    rw [List.getElem_map]
    simp only [List.get_eq_getElem] at hx ⊢
    simp [Nat.mod_eq_of_lt hx]

theorem readBytesList_congr (pb pb' : ByteIOCtx) (p n : Nat)
    (h : ∀ q, p ≤ q → q < p + n → readByte pb' q = readByte pb q) :
    readBytesList pb' p n = readBytesList pb p n := by
  rw [readBytesList, readBytesList]
  apply List.map_congr_left
  intro i hi
  rw [List.mem_range] at hi
  exact h (p + i) (by omega) (by omega)

theorem blocks_state (mkv : MatroskaMuxContext) (pb : ByteIOCtx)
    (codec_type : CodecType) (pkt : AVPacket) (keyframe : Bool) :
    (mkv_write_packet_blocks mkv pb codec_type pkt keyframe).1.cluster_seekhead
        = mkv.cluster_seekhead ∧
    (mkv_write_packet_blocks mkv pb codec_type pkt keyframe).1.cluster_pts
        = mkv.cluster_pts ∧
    (mkv_write_packet_blocks mkv pb codec_type pkt keyframe).1.cluster_pos
        = mkv.cluster_pos ∧
    (mkv_write_packet_blocks mkv pb codec_type pkt keyframe).1.cluster
        = mkv.cluster ∧
    (mkv_write_packet_blocks mkv pb codec_type pkt keyframe).1.md5 = mkv.md5 ∧
    (mkv_write_packet_blocks mkv pb codec_type pkt keyframe).1.duration
        = pkt.pts + pkt.duration ∧
    (mkv_write_packet_blocks mkv pb codec_type pkt keyframe).1.main_seekhead
        = mkv.main_seekhead ∧
    (mkv_write_packet_blocks mkv pb codec_type pkt keyframe).1.duration_offset
        = mkv.duration_offset ∧
    (mkv_write_packet_blocks mkv pb codec_type pkt keyframe).1.segment
        = mkv.segment ∧
    (mkv_write_packet_blocks mkv pb codec_type pkt keyframe).1.segment_uid
        = mkv.segment_uid ∧
    (mkv_write_packet_blocks mkv pb codec_type pkt keyframe).1.segment_offset
        = mkv.segment_offset := by
  simp only [mkv_write_packet_blocks]
  split <;> simp

theorem mkv_add_seekhead_entry_some (s : mkv_seekhead) (e f : Nat)
    (sh : mkv_seekhead) (h : mkv_add_seekhead_entry s e f = some sh) :
    sh.entries.length = s.entries.length + 1 ∧
    sh.filepos = s.filepos ∧
    sh.reserved_size = s.reserved_size ∧
    sh.max_entries = s.max_entries ∧
    sh.segment_offset = s.segment_offset := by
  rw [mkv_add_seekhead_entry] at h
  split at h
  · exact absurd h (by simp)
  · have := Option.some.inj h
    subst this
    simp

/-- C2 (amended) — a successful mkv_write_packet opens a new Cluster iff
the current file offset exceeds `mkv.cluster` — the position just after the
current Cluster's 4-byte ID and 8-byte size placeholder, i.e. the cluster's
start position plus 12 — plus 5 MiB, or the packet pts exceeds the cluster
base pts plus 5000; when it opens one, the cluster SeekHead gains exactly
one entry, the new cluster base pts becomes `pkt.pts` (and the new
`mkv.cluster` again sits 12 bytes past the new cluster start), the
ClusterTimecode element holding `pkt.pts` is written right after the new
cluster's header, and the MD5 stream absorbs the first `min(200,
pkt.size)` payload bytes; otherwise all those state components are
untouched. -/
theorem c2_cluster_boundary (mkv : MatroskaMuxContext) (pb : ByteIOCtx)
    (codec_type : CodecType) (pkt : AVPacket)
    (mkv' : MatroskaMuxContext) (pb' : ByteIOCtx)
    (h : mkv_write_packet mkv pb codec_type pkt = some (mkv', pb')) :
    (pb.pos > mkv.cluster + 5*1024*1024 ∨ pkt.pts > mkv.cluster_pts + 5000 →
      mkv'.cluster_seekhead.entries.length
          = mkv.cluster_seekhead.entries.length + 1 ∧
      mkv'.cluster_pts = pkt.pts ∧
      mkv'.cluster_pos = pb.pos ∧
      mkv'.cluster = pb.pos + 12 ∧
      mkv'.md5 = mkv.md5 ++ pkt.data.take (min 200 pkt.data.length) ∧
      readBytesList pb' (pb.pos + 12)
          (uintElemBytes MATROSKA_ID_CLUSTERTIMECODE pkt.pts).length
        = (uintElemBytes MATROSKA_ID_CLUSTERTIMECODE pkt.pts).map some) ∧
    (¬(pb.pos > mkv.cluster + 5*1024*1024 ∨ pkt.pts > mkv.cluster_pts + 5000) →
      mkv'.cluster_seekhead = mkv.cluster_seekhead ∧
      mkv'.cluster_pts = mkv.cluster_pts ∧
      mkv'.cluster_pos = mkv.cluster_pos ∧
      mkv'.cluster = mkv.cluster ∧
      mkv'.md5 = mkv.md5) := by
  have hid4 : ebml_id_size MATROSKA_ID_CLUSTER = 4 := by decide
  simp only [mkv_write_packet, url_ftell] at h
  by_cases hc : pb.pos > mkv.cluster + 5*1024*1024 ∨ pkt.pts > mkv.cluster_pts + 5000
  · rw [if_pos hc] at h
    refine ⟨fun _ => ?_, fun hn => absurd hc hn⟩
    cases hadd : mkv_add_seekhead_entry mkv.cluster_seekhead MATROSKA_ID_CLUSTER
        (end_ebml_master pb mkv.cluster).pos with
    | none =>
      rw [hadd] at h
      exact absurd h (by simp)
    | some sh =>
      rw [hadd] at h
      have hpair := Option.some.inj h
      have hlen := (mkv_add_seekhead_entry_some _ _ _ _ hadd).1
      have hepos : (end_ebml_master pb mkv.cluster).pos = pb.pos :=
        end_ebml_master_pos _ _
      set mkv2 : MatroskaMuxContext := { mkv with
        cluster_seekhead := sh,
        cluster_pos := (end_ebml_master pb mkv.cluster).pos,
        cluster := (start_ebml_master (end_ebml_master pb mkv.cluster)
          MATROSKA_ID_CLUSTER).2,
        cluster_pts := pkt.pts,
        md5 := mkv.md5 ++ pkt.data.take (min 200 pkt.data.length) } with hmkv2
      have hbl := blocks_state mkv2
        (put_ebml_uint (start_ebml_master (end_ebml_master pb mkv.cluster)
          MATROSKA_ID_CLUSTER).1 MATROSKA_ID_CLUSTERTIMECODE pkt.pts)
        codec_type pkt pkt.flag_key
      have hm : mkv' = (mkv_write_packet_blocks mkv2
          (put_ebml_uint (start_ebml_master (end_ebml_master pb mkv.cluster)
            MATROSKA_ID_CLUSTER).1 MATROSKA_ID_CLUSTERTIMECODE pkt.pts)
          codec_type pkt pkt.flag_key).1 := by
        rw [hpair]
      have hpb : pb' = (mkv_write_packet_blocks mkv2
          (put_ebml_uint (start_ebml_master (end_ebml_master pb mkv.cluster)
            MATROSKA_ID_CLUSTER).1 MATROSKA_ID_CLUSTERTIMECODE pkt.pts)
          codec_type pkt pkt.flag_key).2 := by
        rw [hpair]
      have hsm2 := start_ebml_master_pos (end_ebml_master pb mkv.cluster)
        MATROSKA_ID_CLUSTER
      have hcl12 : (start_ebml_master (end_ebml_master pb mkv.cluster)
          MATROSKA_ID_CLUSTER).2 = pb.pos + 12 := by
        rw [hsm2.2, hepos, hid4]
      refine ⟨?_, ?_, ?_, ?_, ?_, ?_⟩
      · rw [hm, hbl.1, hmkv2]
        simpa using hlen
      · rw [hm, hbl.2.1]
      · rw [hm, hbl.2.2.1, hmkv2]
        exact hepos
      · rw [hm, hbl.2.2.2.1, hmkv2]
        exact hcl12
      · rw [hm, hbl.2.2.2.2.1]
      · -- the ClusterTimecode bytes survive the block writes
        have hpos1 : (start_ebml_master (end_ebml_master pb mkv.cluster)
            MATROSKA_ID_CLUSTER).1.pos = pb.pos + 12 := by
          rw [hsm2.1, hepos, hid4]
        have hwrote := put_buffer_readBytesList
          (start_ebml_master (end_ebml_master pb mkv.cluster) MATROSKA_ID_CLUSTER).1
          (uintElemBytes MATROSKA_ID_CLUSTERTIMECODE pkt.pts)
          (uintElemBytes_mem_lt _ _)
        rw [hpos1] at hwrote
        have hup : (put_ebml_uint (start_ebml_master (end_ebml_master pb mkv.cluster)
            MATROSKA_ID_CLUSTER).1 MATROSKA_ID_CLUSTERTIMECODE pkt.pts).pos
            = pb.pos + 12
              + (uintElemBytes MATROSKA_ID_CLUSTERTIMECODE pkt.pts).length := by
          rw [put_ebml_uint_pos, hpos1]
        rw [hpb]
        rw [readBytesList_congr
          (put_ebml_uint (start_ebml_master (end_ebml_master pb mkv.cluster)
            MATROSKA_ID_CLUSTER).1 MATROSKA_ID_CLUSTERTIMECODE pkt.pts)
          _ _ _ ?_]
        · exact hwrote
        · intro q hq1 hq2
          apply blocks_read_lt
          omega
  · rw [if_neg hc] at h
    refine ⟨fun hcc => absurd hcc hc, fun _ => ?_⟩
    have hpair := Option.some.inj h
    have hbl := blocks_state mkv pb codec_type pkt pkt.flag_key
    have hm : mkv' = (mkv_write_packet_blocks mkv pb codec_type pkt
        pkt.flag_key).1 := by rw [hpair]
    exact ⟨by rw [hm, hbl.1], by rw [hm, hbl.2.1], by rw [hm, hbl.2.2.1],
      by rw [hm, hbl.2.2.2.1], by rw [hm, hbl.2.2.2.2.1]⟩

/-- Counterexample to C2 as stated: with the current cluster starting at
offset 100 (so `mkv.cluster`, the post-header position, is 112) and the
file offset at 5242985 — which exceeds the cluster start position plus
5 MiB (5242980) but not `mkv.cluster + 5 MiB` (5242992) — the write
succeeds without opening a new Cluster: the cluster SeekHead, base pts and
cluster position are unchanged. -/
theorem c2_cluster_boundary_counterexample :
    let mkv0 : MatroskaMuxContext :=
      ⟨40, 40, 60, 112, 100, 0, 80, 0, ⟨40, 40, 293, 10, []⟩,
        ⟨0, 40, 0, 0, []⟩, ⟨40, []⟩, []⟩
    let pb0 : ByteIOCtx := ⟨[], 5242985⟩
    let pkt0 : AVPacket := ⟨[1, 2, 3], 0, 10, 0, false⟩
    let res := mkv_write_packet mkv0 pb0 CodecType.audio pkt0
    pb0.pos > mkv0.cluster_pos + 5*1024*1024 ∧
    res.isSome = true ∧
    (res.getD (mkv0, pb0)).1.cluster_seekhead.entries.length
      = mkv0.cluster_seekhead.entries.length ∧
    (res.getD (mkv0, pb0)).1.cluster_pos = mkv0.cluster_pos ∧
    (res.getD (mkv0, pb0)).1.cluster_pts = mkv0.cluster_pts ∧
    (res.getD (mkv0, pb0)).1.cluster = mkv0.cluster ∧
    (res.getD (mkv0, pb0)).1.md5 = mkv0.md5 := by
  decide

/-- Witness for C2: a packet with pts 6000 against cluster base pts 0
crosses the 5000 ms bound; the new-cluster conclusions hold concretely. -/
theorem c2_cluster_boundary_witness :
    (mkv_write_packet
        ⟨40, 40, 60, 112, 100, 0, 80, 0, ⟨40, 40, 293, 10, []⟩,
          ⟨0, 40, 0, 0, []⟩, ⟨40, []⟩, []⟩
        ⟨[], 200⟩ CodecType.audio ⟨[7, 8], 6000, 10, 0, false⟩).elim False
      (fun r => r.1.cluster_seekhead.entries.length = 1 ∧
        r.1.cluster_pts = 6000 ∧ r.1.cluster_pos = 200 ∧
        r.1.cluster = 212 ∧ r.1.md5 = [7, 8]) := by
  cases hres : mkv_write_packet
      ⟨40, 40, 60, 112, 100, 0, 80, 0, ⟨40, 40, 293, 10, []⟩,
        ⟨0, 40, 0, 0, []⟩, ⟨40, []⟩, []⟩
      ⟨[], 200⟩ CodecType.audio ⟨[7, 8], 6000, 10, 0, false⟩ with
  | none => exact absurd hres (by decide)
  | some r =>
    have h2 := (c2_cluster_boundary _ _ _ _ r.1 r.2
      (by rw [hres])).1 (by decide)
    simp only [Option.elim]
    exact ⟨by rw [h2.1]; decide, h2.2.1, h2.2.2.1, h2.2.2.2.1,
      by rw [h2.2.2.2.2.1]; decide⟩

theorem mkv_write_packet_state (mkv : MatroskaMuxContext) (pb : ByteIOCtx)
    (ct : CodecType) (pkt : AVPacket) (m : MatroskaMuxContext)
    (p : ByteIOCtx) (h : mkv_write_packet mkv pb ct pkt = some (m, p)) :
    m.duration = pkt.pts + pkt.duration ∧
    m.duration_offset = mkv.duration_offset ∧
    m.segment = mkv.segment ∧
    m.segment_uid = mkv.segment_uid := by
  simp only [mkv_write_packet, url_ftell] at h
  by_cases hc : pb.pos > mkv.cluster + 5*1024*1024 ∨ pkt.pts > mkv.cluster_pts + 5000
  · rw [if_pos hc] at h
    cases hadd : mkv_add_seekhead_entry mkv.cluster_seekhead MATROSKA_ID_CLUSTER
        (end_ebml_master pb mkv.cluster).pos with
    | none =>
      rw [hadd] at h
      exact absurd h (by simp)
    | some sh =>
      rw [hadd] at h
      have hpair := Option.some.inj h
      have hbl := blocks_state { mkv with
        cluster_seekhead := sh,
        cluster_pos := (end_ebml_master pb mkv.cluster).pos,
        cluster := (start_ebml_master (end_ebml_master pb mkv.cluster)
          MATROSKA_ID_CLUSTER).2,
        cluster_pts := pkt.pts,
        md5 := mkv.md5 ++ pkt.data.take (min 200 pkt.data.length) }
        (put_ebml_uint (start_ebml_master (end_ebml_master pb mkv.cluster)
          MATROSKA_ID_CLUSTER).1 MATROSKA_ID_CLUSTERTIMECODE pkt.pts)
        ct pkt pkt.flag_key
      have hm : m = (mkv_write_packet_blocks { mkv with
          cluster_seekhead := sh,
          cluster_pos := (end_ebml_master pb mkv.cluster).pos,
          cluster := (start_ebml_master (end_ebml_master pb mkv.cluster)
            MATROSKA_ID_CLUSTER).2,
          cluster_pts := pkt.pts,
          md5 := mkv.md5 ++ pkt.data.take (min 200 pkt.data.length) }
          (put_ebml_uint (start_ebml_master (end_ebml_master pb mkv.cluster)
            MATROSKA_ID_CLUSTER).1 MATROSKA_ID_CLUSTERTIMECODE pkt.pts)
          ct pkt pkt.flag_key).1 := by rw [hpair]
      exact ⟨by rw [hm, hbl.2.2.2.2.2.1],
        by rw [hm, hbl.2.2.2.2.2.2.2.1],
        by rw [hm, hbl.2.2.2.2.2.2.2.2.1],
        by rw [hm, hbl.2.2.2.2.2.2.2.2.2.1]⟩
  · rw [if_neg hc] at h
    have hpair := Option.some.inj h
    have hbl := blocks_state mkv pb ct pkt pkt.flag_key
    have hm : m = (mkv_write_packet_blocks mkv pb ct pkt pkt.flag_key).1 := by
      rw [hpair]
    exact ⟨by rw [hm, hbl.2.2.2.2.2.1],
      by rw [hm, hbl.2.2.2.2.2.2.2.1],
      by rw [hm, hbl.2.2.2.2.2.2.2.2.1],
      by rw [hm, hbl.2.2.2.2.2.2.2.2.2.1]⟩

theorem foldPackets_state : ∀ (pkts : List (CodecType × AVPacket))
    (mkv : MatroskaMuxContext) (pb : ByteIOCtx) (mkv' : MatroskaMuxContext)
    (pb' : ByteIOCtx), foldPackets mkv pb pkts = some (mkv', pb') →
    mkv'.duration_offset = mkv.duration_offset ∧
    mkv'.segment = mkv.segment ∧
    mkv'.segment_uid = mkv.segment_uid := by
  intro pkts
  induction pkts with
  | nil =>
    intro mkv pb mkv' pb' h
    have h2 := Option.some.inj h
    injection h2 with ha hb
    subst ha
    exact ⟨rfl, rfl, rfl⟩
  | cons hd rest ih =>
    intro mkv pb mkv' pb' h
    cases hd with
    | mk ct pkt =>
      cases hw : mkv_write_packet mkv pb ct pkt with
      | none =>
        rw [foldPackets, hw] at h
        exact absurd h (by simp)
      | some mp =>
        cases mp with
        | mk m p =>
          rw [foldPackets, hw] at h
          have h1 := mkv_write_packet_state mkv pb ct pkt m p hw
          have h2 := ih m p mkv' pb' h
          exact ⟨by rw [h2.1, h1.2.1], by rw [h2.2.1, h1.2.2.1],
            by rw [h2.2.2, h1.2.2.2]⟩

theorem foldPackets_duration : ∀ (pkts : List (CodecType × AVPacket))
    (mkv : MatroskaMuxContext) (pb : ByteIOCtx) (mkv' : MatroskaMuxContext)
    (pb' : ByteIOCtx) (_h : foldPackets mkv pb pkts = some (mkv', pb'))
    (hne : pkts ≠ []),
    mkv'.duration = (pkts.getLast hne).2.pts + (pkts.getLast hne).2.duration := by
  intro pkts
  induction pkts with
  | nil =>
    intro _ _ _ _ _ hne
    exact absurd rfl hne
  | cons hd rest ih =>
    intro mkv pb mkv' pb' h hne
    cases hd with
    | mk ct pkt =>
      cases hw : mkv_write_packet mkv pb ct pkt with
      | none =>
        rw [foldPackets, hw] at h
        exact absurd h (by simp)
      | some mp =>
        cases mp with
        | mk m p =>
          rw [foldPackets, hw] at h
          cases rest with
          | nil =>
            have h2 : foldPackets m p [] = some (mkv', pb') := h
            have h3 := Option.some.inj h2
            injection h3 with ha hb
            subst ha
            have hd := (mkv_write_packet_state mkv pb ct pkt m p hw).1
            simpa using hd
          | cons r rs =>
            have hlast : ((ct, pkt) :: r :: rs).getLast hne
                = (r :: rs).getLast (by simp) := by
              rw [List.getLast_cons]
            rw [hlast]
            exact ih m p mkv' pb' h (by simp)

theorem ebmlSizeLoopF_le (fuel : Nat) : ∀ (v b m : Nat), v < 2^(7*m) →
    ebmlSizeLoopF fuel v b ≤ b + m := by
  induction fuel with
  | zero =>
    intro v b m _
    simp [ebmlSizeLoopF]
  | succ fuel ih =>
    intro v b m hv
    rw [ebmlSizeLoopF]
    split
    · omega
    · next hne =>
      have hm : 1 ≤ m := by
        by_contra hcon
        have : m = 0 := by omega
        subst this
        simp at hv
        exact hne hv
      have hshift : v >>> 7 < 2^(7*(m-1)) := by
        rw [Nat.shiftRight_eq_div_pow]
        have : (2:Nat)^(7*m) = 2^7 * 2^(7*(m-1)) := by
          rw [← pow_add]
          congr 1
          omega
        rw [this] at hv
        exact Nat.div_lt_of_lt_mul hv
      have := ih (v >>> 7) (b+1) (m-1) hshift
      omega

theorem ebml_size_bytes_le (x k : Nat) (hk : 1 ≤ k) (h : x + 1 < 2^(7*k)) :
    ebml_size_bytes x ≤ k := by
  rw [ebml_size_bytes, ebmlSizeLoop]
  have hshift : (x+1) >>> 7 < 2^(7*(k-1)) := by
    rw [Nat.shiftRight_eq_div_pow]
    have : (2:Nat)^(7*k) = 2^7 * 2^(7*(k-1)) := by
      rw [← pow_add]
      congr 1
      omega
    rw [this] at h
    exact Nat.div_lt_of_lt_mul h
  have := ebmlSizeLoopF_le ((x+1) >>> 7) ((x+1) >>> 7) 1 (k-1) hshift
  omega

theorem ebmlSizePayload_minb8_len_le (x : Nat) :
    (ebmlSizePayload x 8).length ≤ 8 := by
  rw [ebmlSizePayload]
  split
  · simp [unknownSizeBytes, beBytes_length]
  · next hlt =>
    rw [beBytes_length]
    have h8 : ebml_size_bytes x ≤ 8 := by
      apply ebml_size_bytes_le x 8 (by norm_num)
      have : x < 2^56 - 1 := by omega
      norm_num
      omega
    omega

theorem end_ebml_master_read_ge (pb : ByteIOCtx) (start q : Nat)
    (h : start - 8 + 8 ≤ q) :
    readByte (end_ebml_master pb start) q = readByte pb q := by
  show readByte (put_buffer (url_fseek_set pb (start-8))
    (ebmlSizePayload (pb.pos - start) 8)) q = readByte pb q
  apply put_buffer_read_out
  right
  have := ebmlSizePayload_minb8_len_le (pb.pos - start)
  show start - 8 + (ebmlSizePayload (pb.pos - start) 8).length ≤ q
  omega

theorem floatElemBytes_length (id v : Nat) (hid : ebml_id_size id = 2) :
    (floatElemBytes id v).length = 11 := by
  rw [floatElemBytes]
  simp only [List.length_append, idBytes, beBytes_length, hid]
  have : (ebmlSizePayload 8 0).length = 1 := by decide
  rw [this]

theorem floatElemBytes_mem_lt (id v : Nat) :
    ∀ x ∈ floatElemBytes id v, x < 256 := by
  intro x hx
  rw [floatElemBytes] at hx
  rcases List.mem_append.mp hx with h1 | h2
  · rcases List.mem_append.mp h1 with h3 | h4
    · exact beBytes_mem_lt _ _ x h3
    · exact ebmlSizePayload_mem_lt _ _ x h4
  · exact beBytes_mem_lt _ _ x h2

theorem seguid_binary_length (l : List Nat) :
    (binaryElemBytes MATROSKA_ID_SEGMENTUID (av_md5_final l)).length = 19 := by
  rw [av_md5_final]
  decide

theorem duration_region_after_tail (pbA : ByteIOCtx) (mkv : MatroskaMuxContext)
    (bitexact : Bool) (cpos : Nat)
    (huid : mkv.segment_uid + 19 ≤ mkv.duration_offset)
    (hseg : mkv.segment ≤ mkv.duration_offset) :
    readBytesList (end_ebml_master (url_fseek_set
        (if !bitexact then
          put_ebml_binary
            (url_fseek_set
              (put_ebml_float (url_fseek_set pbA mkv.duration_offset)
                MATROSKA_ID_DURATION mkv.duration)
              mkv.segment_uid)
            MATROSKA_ID_SEGMENTUID (av_md5_final mkv.md5)
        else
          put_ebml_float (url_fseek_set pbA mkv.duration_offset)
            MATROSKA_ID_DURATION mkv.duration)
        cpos) mkv.segment)
      mkv.duration_offset 11
    = (floatElemBytes MATROSKA_ID_DURATION mkv.duration).map some := by
  have hid : ebml_id_size MATROSKA_ID_DURATION = 2 := by decide
  have hlen := floatElemBytes_length MATROSKA_ID_DURATION mkv.duration hid
  have hwrote : readBytesList
      (put_ebml_float (url_fseek_set pbA mkv.duration_offset)
        MATROSKA_ID_DURATION mkv.duration)
      mkv.duration_offset 11
      = (floatElemBytes MATROSKA_ID_DURATION mkv.duration).map some := by
    have hw := put_buffer_readBytesList (url_fseek_set pbA mkv.duration_offset)
      (floatElemBytes MATROSKA_ID_DURATION mkv.duration)
      (floatElemBytes_mem_lt _ _)
    rw [hlen] at hw
    exact hw
  refine Eq.trans ?_ hwrote
  apply readBytesList_congr
  intro q hq1 hq2
  rw [end_ebml_master_read_ge]
  · rw [readByte_fseek]
    by_cases hbx : bitexact
    · simp [hbx]
    · simp only [hbx, Bool.not_false, if_pos]
      rw [put_ebml_binary, put_buffer_read_out]
      · rfl
      · right
        rw [seguid_binary_length]
        show mkv.segment_uid + 19 ≤ q
        omega
  · omega

/-- C8 (amended) — after a non-empty packet sequence is written, the
duration value maintained by the muxer equals the LAST packet's
`pts + duration` (the code assigns, it does not take a running maximum),
and the trailer rewrites the 11-byte Duration reservation at
`duration_offset` with exactly the EBML float element of that value. -/
theorem c8_duration_last_packet (mkv : MatroskaMuxContext) (pb : ByteIOCtx)
    (pkts : List (CodecType × AVPacket)) (mkv' : MatroskaMuxContext)
    (pb' : ByteIOCtx) (bitexact : Bool)
    (h : foldPackets mkv pb pkts = some (mkv', pb'))
    (hne : pkts ≠ [])
    (huid : mkv'.segment_uid + 19 ≤ mkv'.duration_offset)
    (hseg : mkv'.segment ≤ mkv'.duration_offset) :
    mkv'.duration = (pkts.getLast hne).2.pts + (pkts.getLast hne).2.duration ∧
    readBytesList (mkv_write_trailer mkv' pb' bitexact) mkv'.duration_offset 11
      = (floatElemBytes MATROSKA_ID_DURATION mkv'.duration).map some := by
  refine ⟨foldPackets_duration pkts mkv pb mkv' pb' h hne, ?_⟩
  exact duration_region_after_tail _ mkv' bitexact _ huid hseg

/-- Counterexample to C8 as stated: two packets with `pts+duration` of 100
and then 30; the maintained duration ends at 30, not at the running
maximum 100. -/
theorem c8_duration_counterexample :
    let mkv0 : MatroskaMuxContext :=
      ⟨40, 40, 60, 112, 100, 0, 80, 0, ⟨40, 40, 293, 10, []⟩,
        ⟨0, 40, 0, 0, []⟩, ⟨40, []⟩, []⟩
    let pb0 : ByteIOCtx := ⟨[], 200⟩
    let res := foldPackets mkv0 pb0
      [(CodecType.audio, ⟨[1], 0, 100, 0, false⟩),
       (CodecType.audio, ⟨[2], 10, 20, 0, false⟩)]
    res.isSome = true ∧
    (res.getD (mkv0, pb0)).1.duration = 30 ∧
    ¬ (res.getD (mkv0, pb0)).1.duration = max (0 + 100) (10 + 20) := by
  decide

/-- Witness for C8 at the two-packet sequence above (bitexact trailer). -/
theorem c8_duration_last_packet_witness :
    (foldPackets
        ⟨40, 40, 60, 112, 100, 0, 80, 0, ⟨40, 40, 293, 10, []⟩,
          ⟨0, 40, 0, 0, []⟩, ⟨40, []⟩, []⟩
        ⟨[], 200⟩
        [(CodecType.audio, ⟨[1], 0, 100, 0, false⟩),
         (CodecType.audio, ⟨[2], 10, 20, 0, false⟩)]).elim False
      (fun r => r.1.duration = 30 ∧
        readBytesList (mkv_write_trailer r.1 r.2 true) r.1.duration_offset 11
          = (floatElemBytes MATROSKA_ID_DURATION r.1.duration).map some) := by
  cases hres : foldPackets
      ⟨40, 40, 60, 112, 100, 0, 80, 0, ⟨40, 40, 293, 10, []⟩,
        ⟨0, 40, 0, 0, []⟩, ⟨40, []⟩, []⟩
      ⟨[], 200⟩
      [(CodecType.audio, ⟨[1], 0, 100, 0, false⟩),
       (CodecType.audio, ⟨[2], 10, 20, 0, false⟩)] with
  | none => exact absurd hres (by decide)
  | some r =>
    have hfix := foldPackets_state _ _ _ r.1 r.2 (by rw [hres])
    have h2 := c8_duration_last_packet _ _ _ r.1 r.2 true
      (by rw [hres]) (by decide)
      (by rw [hfix.1, hfix.2.2]; decide)
      (by rw [hfix.1, hfix.2.1]; decide)
    simp only [Option.elim]
    exact ⟨by rw [h2.1]; decide, h2.2⟩

/-- C9 — code-bug exhibit.  The guard `sri > 12` admits index 12, one past
the end of the 12-entry table: extradata bytes `[0x06, 0x00]` yield
sri = 12, pass the guard, and the table access is out of bounds (`none`),
while a genuinely rejected index (13, from `[0x06, 0x80]`) leaves the
rates untouched and indices 0..11 stay in bounds. -/
theorem c9_aac_index_out_of_bounds :
    aac_sample_rates.length = 12 ∧
    get_aac_sample_rates [0x06, 0x00] 44100 0 = none ∧
    get_aac_sample_rates [0x06, 0x80] 44100 0 = some (44100, 0) ∧
    get_aac_sample_rates [0x00, 0x00] 44100 0 = some (96000, 0) ∧
    get_aac_sample_rates [0x05, 0x80] 44100 0 = some (8000, 0) ∧
    get_aac_sample_rates [0x05, 0x80, 0, 0, 0x60] 44100 0 = none := by
  decide

theorem and_0x7f_eq_mod (b : Nat) : b &&& 0x7f = b % 128 := by
  have := Nat.and_pow_two_sub_one_eq_mod b 7
  norm_num at this
  exact this

theorem berAccum_beBytes (n v : Nat) : berAccum (beBytes n v) = v % 2 ^ (8*n) :=
  beVal_beBytes n v

/-- C4 (amended) — klv_decode_ber_length returns the 7 low bits when the
first byte's MSB is 0, rejects a long-form length-byte count above 8 with
−1, and inverts every 1..8-length-byte long-form encoding of a value
below 2^63 (values in [2^63, 2^64) overflow the signed 64-bit return; the
all-ones encoding collides with the −1 failure sentinel, see the
counterexample). -/
theorem klv_decode_berEncodeLong (n v : Nat) (rest : List Nat)
    (h1 : 1 ≤ n) (h8 : n ≤ 8) (hv : v < 2^(8*n)) (h63 : v < 2^63) :
    klv_decode_ber_length (berEncodeLong n v ++ rest)
      = some ((v : Int), rest) := by
    have hlorn : 0x80 ||| n = 128 + n := by
      have h2 : n < 2^7 := by omega
      have := lor_two_pow_of_lt h2
      rw [Nat.lor_comm] at this
      norm_num at this ⊢
      omega
    have hberhd : berEncodeLong n v ++ rest = (128 + n) :: (beBytes n v ++ rest) := by
      rw [berEncodeLong, hlorn]
      simp
    rw [hberhd, klv_decode_ber_length]
    have hmod : (128 + n) % 256 = 128 + n := Nat.mod_eq_of_lt (by omega)
    have hshift : ((128 + n) % 256) >>> 7 = 1 := by
      rw [hmod, Nat.shiftRight_eq_div_pow]
      omega
    rw [if_pos (by simp [hshift])]
    have hand : (128 + n) % 256 &&& 0x7f = n := by
      rw [hmod, and_0x7f_eq_mod]
      omega
    rw [hand, if_neg (by omega)]
    have hget : getBytesR n (beBytes n v ++ rest) = some (beBytes n v, rest) := by
      rw [getBytesR,
        if_pos (by rw [List.length_append, beBytes_length]; omega),
        List.take_left' (beBytes_length n v),
        List.drop_left' (beBytes_length n v)]
    rw [hget]
    show some (int64OfNat (berAccum (beBytes n v)), rest) = some ((v : Int), rest)
    rw [berAccum_beBytes, Nat.mod_eq_of_lt hv]
    rw [int64OfNat, if_pos]
    · rw [Nat.mod_eq_of_lt (by omega)]
    · rw [Nat.mod_eq_of_lt (by omega)]
      omega

theorem c4_ber_length_decode (b n v : Nat) (rest : List Nat) :
    (b < 128 → klv_decode_ber_length (b :: rest) = some ((b : Int), rest)) ∧
    (1 ≤ n → n ≤ 8 → v < 2^(8*n) → v < 2^63 →
      klv_decode_ber_length (berEncodeLong n v ++ rest)
        = some ((v : Int), rest)) ∧
    (128 ≤ b → b ≤ 255 → b &&& 0x7f > 8 →
      klv_decode_ber_length (b :: rest) = some (-1, rest)) := by
  refine ⟨?_, ?_, ?_⟩
  · intro hb
    rw [klv_decode_ber_length]
    have hmod : b % 256 = b := Nat.mod_eq_of_lt (by omega)
    have hshift : (b % 256) >>> 7 = 0 := by
      rw [hmod, Nat.shiftRight_eq_div_pow]
      omega
    rw [if_neg (by simp [hshift])]
    rw [hmod, and_0x7f_eq_mod, Nat.mod_eq_of_lt hb]
  · intro h1 h8 hv h63
    exact klv_decode_berEncodeLong n v rest h1 h8 hv h63
  · intro hb1 hb2 hgt
    rw [klv_decode_ber_length]
    have hmod : b % 256 = b := Nat.mod_eq_of_lt (by omega)
    have hshift : (b % 256) >>> 7 ≠ 0 := by
      rw [hmod, Nat.shiftRight_eq_div_pow]
      omega
    rw [if_pos hshift, hmod, if_pos hgt]

/-- Counterexample to C4 as stated: the valid 8-length-byte BER encoding
of 2^64 − 1 decodes to −1, the failure sentinel, not to its value. -/
theorem c4_ber_length_counterexample :
    berEncodeLong 8 (2^64 - 1)
      = [0x88, 255, 255, 255, 255, 255, 255, 255, 255] ∧
    klv_decode_ber_length (berEncodeLong 8 (2^64 - 1)) = some (-1, []) ∧
    (-1 : Int) ≠ ((2^64 - 1 : Nat) : Int) := by
  decide

/-- Witness for C4 at a 2-length-byte encoding of 300. -/
theorem c4_ber_length_decode_witness :
    klv_decode_ber_length (berEncodeLong 2 300 ++ [9])
      = some ((300 : Int), [9]) :=
  (c4_ber_length_decode 0 2 300 [9]).2.1 (by decide) (by decide) (by decide)
    (by decide)

theorem serializeKLV_length (k : KLVItem) (hkey : k.key.length = 16) :
    (serializeKLV k).length = 25 + k.value.length := by
  rw [serializeKLV]
  simp [berEncodeLong, beBytes_length, hkey]
  omega

theorem klv_read_packet_serialized (k : KLVItem) (more : List Nat)
    (hkey : k.key.length = 16) (hval : k.value.length < 2^63) :
    klv_read_packet (serializeKLV k ++ more)
      = .ok ⟨k.key, k.value.length⟩ (k.value ++ more) := by
  have hassoc : serializeKLV k ++ more
      = k.key ++ (berEncodeLong 8 k.value.length ++ (k.value ++ more)) := by
    rw [serializeKLV]
    simp
  rw [hassoc, klv_read_packet]
  have hget : getBytesR 16
      (k.key ++ (berEncodeLong 8 k.value.length ++ (k.value ++ more)))
      = some (k.key, berEncodeLong 8 k.value.length ++ (k.value ++ more)) := by
    rw [getBytesR, if_pos (by simp [hkey]), List.take_left' hkey,
      List.drop_left' hkey]
  rw [hget]
  show (match klv_decode_ber_length
        (berEncodeLong 8 k.value.length ++ (k.value ++ more)) with
    | none => KLVReadResult.eof
    | some (len, rest2) =>
      if u64OfInt len = u64OfInt (-1) then KLVReadResult.err
      else KLVReadResult.ok ⟨k.key, u64OfInt len⟩ rest2)
    = KLVReadResult.ok ⟨k.key, k.value.length⟩ (k.value ++ more)
  rw [klv_decode_berEncodeLong 8 k.value.length (k.value ++ more)
    (by norm_num) (by norm_num)
    (lt_trans hval (by norm_num)) hval]
  have hu : u64OfInt ((k.value.length : Int)) = k.value.length := by
    rw [u64OfInt]
    omega
  have hne : u64OfInt (-1) = 2^64 - 1 := by decide
  show (if u64OfInt ((k.value.length : Int)) = u64OfInt (-1) then KLVReadResult.err
      else KLVReadResult.ok ⟨k.key, u64OfInt ((k.value.length : Int))⟩
        (k.value ++ more))
    = KLVReadResult.ok ⟨k.key, k.value.length⟩ (k.value ++ more)
  rw [if_neg (by rw [hu, hne]; omega)]
  rw [hu]

theorem mxf_read_loop_scan (streams : List (List Nat)) :
    ∀ (klvs : List KLVItem) (fuel : Nat),
    (∀ k ∈ klvs, k.key.length = 16 ∧ k.value.length < 2^63) →
    (serializeKLVs klvs).length < fuel →
    mxf_read_packet_loop streams fuel (serializeKLVs klvs)
      = (match scanKLVs streams klvs with
        | .error e => .error e
        | .ok (i, v, rest) => .ok (i, v, serializeKLVs rest)) := by
  intro klvs
  induction klvs with
  | nil =>
    intro fuel _ hf
    cases fuel with
    | zero => simp at hf
    | succ f => rfl
  | cons k rest ih =>
    intro fuel hk hf
    have hk1 := hk k (List.mem_cons_self k rest)
    have hser : serializeKLVs (k :: rest)
        = serializeKLV k ++ serializeKLVs rest := by
      rw [serializeKLVs, List.flatMap_cons]
      rfl
    have hlen := serializeKLV_length k hk1.1
    rw [hser] at hf ⊢
    rw [List.length_append] at hf
    cases fuel with
    | zero => omega
    | succ f =>
      have hnonnil : serializeKLV k ++ serializeKLVs rest ≠ [] := by
        intro hc
        have h0 := congrArg List.length hc
        rw [List.length_append] at h0
        simp only [List.length_nil] at h0
        omega
      have hstep : mxf_read_packet_loop streams (f+1)
          (serializeKLV k ++ serializeKLVs rest)
          = (if k.key.take 12 = mxf_essence_element_key then
              (match mxf_get_stream_index streams k.key with
                | some i => Except.ok (i,
                    (k.value ++ serializeKLVs rest).take k.value.length,
                    (k.value ++ serializeKLVs rest).drop k.value.length)
                | none => Except.error MXFReadErr.err)
            else mxf_read_packet_loop streams f
              ((k.value ++ serializeKLVs rest).drop k.value.length)) := by
        rw [mxf_read_packet_loop, if_neg (by simp [List.isEmpty_iff, hnonnil]),
          klv_read_packet_serialized k _ hk1.1 hk1.2]
      rw [hstep]
      by_cases hess : k.key.take 12 = mxf_essence_element_key
      · rw [if_pos hess, scanKLVs, if_pos hess]
        cases hidx : mxf_get_stream_index streams k.key with
        | some i =>
          rw [List.take_left' rfl, List.drop_left' rfl]
        | none => rfl
      · rw [if_neg hess, scanKLVs, if_neg hess, List.drop_left' rfl]
        apply ih f (fun x hx => hk x (List.mem_cons_of_mem k hx))
        omega

/-- C3 — over a stream of serialised KLVs, mxf_read_packet behaves as the
whole-KLV scan: every KLV whose 16-byte key does not begin with the
12-byte essence-element prefix is skipped by exactly its length, the
first essence-element KLV is returned as a packet of exactly its length
bytes with stream_index the first stream whose 4-byte track_number equals
the last 4 key bytes (leaving the remaining stream intact), and an
exhausted stream yields the I/O error. -/
theorem c3_read_packet_scan (streams : List (List Nat)) (klvs : List KLVItem)
    (hk : ∀ k ∈ klvs, k.key.length = 16 ∧ k.value.length < 2^63) :
    mxf_read_packet streams (serializeKLVs klvs)
      = (match scanKLVs streams klvs with
        | .error e => .error e
        | .ok (i, v, rest) => .ok (i, v, serializeKLVs rest)) := by
  rw [mxf_read_packet]
  exact mxf_read_loop_scan streams klvs _ hk (by omega)

/-- Witness for C3: a metadata KLV followed by an essence KLV routed to
stream 0. -/
theorem c3_read_packet_scan_witness :
    mxf_read_packet [[0, 0, 0, 7]]
      (serializeKLVs
        [⟨List.replicate 16 0, [1, 2]⟩,
         ⟨mxf_essence_element_key ++ [0, 0, 0, 7], [9, 9]⟩])
      = .ok (0, [9, 9], []) := by
  rw [c3_read_packet_scan [[0, 0, 0, 7]]
    [⟨List.replicate 16 0, [1, 2]⟩,
     ⟨mxf_essence_element_key ++ [0, 0, 0, 7], [9, 9]⟩]
    (by decide)]
  rfl

/-- C10 — an essence-element KLV whose last 4 key bytes match no stream's
track_number makes mxf_read_packet return the −1 error immediately (after
the value has been consumed into the packet), regardless of what follows
in the stream — later matching KLVs are never reached. -/
theorem c10_unroutable_essence_fails (streams : List (List Nat))
    (k : KLVItem) (more : List Nat)
    (hkey : k.key.length = 16) (hval : k.value.length < 2^63)
    (hess : k.key.take 12 = mxf_essence_element_key)
    (hnone : mxf_get_stream_index streams k.key = none) :
    mxf_read_packet streams (serializeKLV k ++ more) = .error .err := by
  rw [mxf_read_packet]
  have hnonnil : serializeKLV k ++ more ≠ [] := by
    intro hc
    have h0 := congrArg List.length hc
    rw [List.length_append, serializeKLV_length k hkey] at h0
    simp only [List.length_nil] at h0
    omega
  rw [show (serializeKLV k ++ more).length + 1
      = ((serializeKLV k ++ more).length) + 1 from rfl]
  rw [mxf_read_packet_loop, if_neg (by simp [List.isEmpty_iff, hnonnil]),
    klv_read_packet_serialized k more hkey hval]
  show (if k.key.take 12 = mxf_essence_element_key then
      (match mxf_get_stream_index streams k.key with
        | some i => Except.ok (i, (k.value ++ more).take k.value.length,
            (k.value ++ more).drop k.value.length)
        | none => Except.error MXFReadErr.err)
    else mxf_read_packet_loop streams (serializeKLV k ++ more).length
      ((k.value ++ more).drop k.value.length)) = Except.error MXFReadErr.err
  rw [if_pos hess, hnone]

/-- Witness for C10: the unmatched essence KLV is followed by one that
would match stream 0, yet the read fails. -/
theorem c10_unroutable_essence_fails_witness :
    mxf_read_packet [[9, 9, 9, 9]]
      (serializeKLV ⟨mxf_essence_element_key ++ [0, 0, 0, 1], [7]⟩ ++
        serializeKLV ⟨mxf_essence_element_key ++ [9, 9, 9, 9], [8]⟩)
      = .error .err :=
  c10_unroutable_essence_fails [[9, 9, 9, 9]]
    ⟨mxf_essence_element_key ++ [0, 0, 0, 1], [7]⟩
    (serializeKLV ⟨mxf_essence_element_key ++ [9, 9, 9, 9], [8]⟩)
    (by decide) (by decide) (by decide) (by decide)

/-- C1 — code-bug exhibit.  `source_package` is declared at function
scope, so after the first material track resolves it, a second track
whose SourceClip references a package_uid matching NO package silently
reuses the previous track's source package: the context below has two
material tracks, the second clip's source_package_uid [99] matches no
package (third conjunct), yet the parse emits TWO streams, the second
with id 2 routed through the first track's source package — where the
claim (and the source's own "no corresponding source package found"
path) requires that track to be skipped. -/
theorem c1_stale_source_package_emits_stream :
    let clip1 : MXFStructuralComponent := ⟨[10], [20], [], 5, 0, 1, .SourceClip⟩
    let clip2 : MXFStructuralComponent := ⟨[11], [99], [], 7, 3, 2, .SourceClip⟩
    let mtrack1 : MXFTrack := ⟨[40], some ⟨[30], [], [some clip1], 5⟩, 101, [], 25, 1⟩
    let mtrack2 : MXFTrack := ⟨[41], some ⟨[31], [], [some clip2], 7⟩, 102, [], 25, 1⟩
    let strack1 : MXFTrack :=
      ⟨[60], some ⟨[32], sound_essence_track_ul, [], 0⟩, 1, [0,0,0,1], 25, 1⟩
    let strack2 : MXFTrack :=
      ⟨[61], some ⟨[33], sound_essence_track_ul, [], 0⟩, 2, [0,0,0,2], 25, 1⟩
    let ctx : MXFContextM := ⟨[
      some ⟨[50], [0], [some mtrack1, some mtrack2], none, .MaterialPackage⟩,
      some ⟨[70], [20], [some strack1, some strack2], none, .SourcePackage⟩]⟩
    mxf_parse_structural_metadata ctx = .ok
      [⟨1, 5, 0, 25, 1, CodecType.audio, CodecID.NONE, 0, 0, 0, 0, 0⟩,
       ⟨2, 7, 3, 25, 1, CodecType.audio, CodecID.NONE, 0, 0, 0, 0, 0⟩] ∧
    (ctx.packages.all (fun p =>
      match p with
      | some pk => decide (pk.package_uid ≠ [99])
      | none => true)) = true := by
  constructor
  · rfl
  · rfl
